import Mathlib

/-!
# Verification of the Vaultace SecureFlow workflow core

Shallow embedding of the security-automation CLI's workflow execution core:
the encrypted state layer (`src/workflows/engine/state.js`,
class `EncryptedStateManager`) and the step-orchestration engine
(class `SecureFlowEngine`).

Modelling conventions:
* JSON values are the inductive `JValue`; `JSON.stringify` is `jsonStringify`
  (string escaping is modelled for the quote and backslash characters, JSON
  numbers are modelled as integers, `serialized.length` is the character
  count); `JSON.parse` is `parseJson`, a recursive-descent parser over the
  same grammar.
* Node library primitives that are not part of the repository are modelled
  from the spec: PBKDF2 (`pbkdf2Model`), AES-256-GCM (`gcmEncrypt` /
  `gcmDecrypt`: ideal AEAD — the ciphertext carries the plaintext, the auth
  tag is the tuple of key, IV, AAD and ciphertext, and decryption succeeds
  exactly when the tag matches), gzip+base64 (`gzipBase64` / `gunzipBase64`:
  an injective encoding into the base64 alphabet behind the gzip magic
  header, so gunzip of non-gzip data fails).
* Randomness (IVs, salts, generated keys) is passed as explicit inputs;
  wall-clock time is an explicit counter.
-/

namespace Vaultace

/-- JSON values, the payload domain of the state layer and the engine
(JSON numbers modelled as integers). -/
inductive JValue where
  | jnull
  | jbool (b : Bool)
  | jnum (n : Int)
  | jstr (s : String)
  | jarr (xs : List JValue)
  | jobj (fields : List (String × JValue))

/-! ## JSON.stringify -/

/-- JSON string escaping, modelled for the two structural characters. -/
def escapeChars : List Char → List Char
  | [] => []
  | c :: t => if c = '"' ∨ c = '\\' then '\\' :: c :: escapeChars t else c :: escapeChars t

/-- The character for a decimal digit value. -/
def digitChar (d : Nat) : Char := Char.ofNat (48 + d)

/-- The numeric value of a decimal digit character. -/
def digitVal (c : Char) : Nat := c.toNat - 48

/-- Decimal digit characters of a positive number, most significant first
(fuelled so that it computes by kernel reduction). -/
def natCharsAux : Nat → Nat → List Char
  | 0, _ => []
  | fuel + 1, n => if n = 0 then [] else natCharsAux fuel (n / 10) ++ [digitChar (n % 10)]

/-- The decimal digit characters of a natural number, most significant first. -/
def natChars (n : Nat) : List Char :=
  if n = 0 then ['0'] else natCharsAux (n + 1) n

/-- The decimal rendering of an integer, as `JSON.stringify` prints it. -/
def intChars (n : Int) : List Char :=
  if n < 0 then '-' :: natChars n.natAbs else natChars n.toNat

mutual
/-- `JSON.stringify`, at the character-list level. -/
def strV : JValue → List Char
  | .jnull => ['n', 'u', 'l', 'l']
  | .jbool true => ['t', 'r', 'u', 'e']
  | .jbool false => ['f', 'a', 'l', 's', 'e']
  | .jnum n => intChars n
  | .jstr s => '"' :: (escapeChars s.data ++ ['"'])
  | .jarr [] => ['[', ']']
  | .jarr (v :: vs) => '[' :: (strV v ++ strItems vs)
  | .jobj [] => ['{', '}']
  | .jobj (p :: fs) => '{' :: (strPair p ++ strFields fs)

/-- One `"key":value` member of a serialized object. -/
def strPair : String × JValue → List Char
  | (k, v) => '"' :: (escapeChars k.data ++ '"' :: ':' :: strV v)

/-- The remaining elements of a serialized array, each preceded by a comma,
closed by the bracket. -/
def strItems : List JValue → List Char
  | [] => [']']
  | v :: t => ',' :: (strV v ++ strItems t)

/-- The remaining members of a serialized object, closed by the brace. -/
def strFields : List (String × JValue) → List Char
  | [] => ['}']
  | p :: t => ',' :: (strPair p ++ strFields t)
end

/-- `JSON.stringify`. -/
def jsonStringify (v : JValue) : String := ⟨strV v⟩

/-! ## JSON.parse -/

/-- Consume an expected literal sequence of characters. -/
def dropLit : List Char → List Char → Option (List Char)
  | [], s => some s
  | _ :: _, [] => none
  | c :: cs, d :: t => if d = c then dropLit cs t else none

/-- Accumulate a run of decimal digits. -/
def readDigits : Nat → List Char → Nat × List Char
  | acc, [] => (acc, [])
  | acc, c :: t => if c.isDigit then readDigits (10 * acc + digitVal c) t else (acc, c :: t)

/-- Parse the body of a JSON string after the opening quote. -/
def parseStrBody : List Char → Option (List Char × List Char)
  | [] => none
  | c :: t =>
    if c = '"' then some ([], t)
    else if c = '\\' then
      match t with
      | [] => none
      | d :: t2 =>
        if d = '"' ∨ d = '\\' then (parseStrBody t2).map (fun p => (d :: p.1, p.2)) else none
    else (parseStrBody t).map (fun p => (c :: p.1, p.2))

mutual
/-- `JSON.parse`: recursive-descent value parser, fuelled. -/
def parseVal : Nat → List Char → Option (JValue × List Char)
  | 0, _ => none
  | _ + 1, [] => none
  | fuel + 1, c :: t =>
    if c = 'n' then (dropLit ['u', 'l', 'l'] t).map (fun r => (JValue.jnull, r))
    else if c = 't' then (dropLit ['r', 'u', 'e'] t).map (fun r => (JValue.jbool true, r))
    else if c = 'f' then (dropLit ['a', 'l', 's', 'e'] t).map (fun r => (JValue.jbool false, r))
    else if c = '"' then (parseStrBody t).map (fun p => (JValue.jstr ⟨p.1⟩, p.2))
    else if c = '-' then
      match t with
      | [] => none
      | d :: t2 =>
        if d.isDigit then
          some (JValue.jnum (-((readDigits 0 (d :: t2)).1 : Int)), (readDigits 0 (d :: t2)).2)
        else none
    else if c.isDigit then
      some (JValue.jnum ((readDigits 0 (c :: t)).1 : Int), (readDigits 0 (c :: t)).2)
    else if c = '[' then
      match t with
      | [] => none
      | d :: t2 =>
        if d = ']' then some (JValue.jarr [], t2)
        else
          match parseVal fuel (d :: t2) with
          | none => none
          | some (v, r) =>
            match parseArrRest fuel r with
            | none => none
            | some (vs, r2) => some (JValue.jarr (v :: vs), r2)
    else if c = '{' then
      match t with
      | [] => none
      | d :: t2 =>
        if d = '}' then some (JValue.jobj [], t2)
        else
          match parsePairF fuel (d :: t2) with
          | none => none
          | some (p, r) =>
            match parseObjRest fuel r with
            | none => none
            | some (fs, r2) => some (JValue.jobj (p :: fs), r2)
    else none

/-- Parse one `"key":value` object member. -/
def parsePairF : Nat → List Char → Option ((String × JValue) × List Char)
  | 0, _ => none
  | _ + 1, [] => none
  | fuel + 1, c :: t =>
    if c = '"' then
      match parseStrBody t with
      | none => none
      | some (k, r) =>
        match r with
        | [] => none
        | c2 :: r2 =>
          if c2 = ':' then
            match parseVal fuel r2 with
            | none => none
            | some (v, r3) => some ((⟨k⟩, v), r3)
          else none
    else none

/-- Parse the rest of an array after its first element. -/
def parseArrRest : Nat → List Char → Option (List JValue × List Char)
  | 0, _ => none
  | _ + 1, [] => none
  | fuel + 1, c :: t =>
    if c = ']' then some ([], t)
    else if c = ',' then
      match parseVal fuel t with
      | none => none
      | some (v, r) =>
        match parseArrRest fuel r with
        | none => none
        | some (vs, r2) => some (v :: vs, r2)
    else none

/-- Parse the rest of an object after its first member. -/
def parseObjRest : Nat → List Char → Option (List (String × JValue) × List Char)
  | 0, _ => none
  | _ + 1, [] => none
  | fuel + 1, c :: t =>
    if c = '}' then some ([], t)
    else if c = ',' then
      match parsePairF fuel t with
      | none => none
      | some (p, r) =>
        match parseObjRest fuel r with
        | none => none
        | some (fs, r2) => some (p :: fs, r2)
    else none
end

/-- `JSON.parse`: succeeds only when the whole input is one JSON value. -/
def parseJson (s : String) : Option JValue :=
  match parseVal (s.data.length + 1) s.data with
  | some (v, []) => some v
  | _ => none

/-! ## Round trip of the JSON codec -/

/-- Whether a character list starts with a decimal digit. -/
def digitStart : List Char → Bool
  | [] => false
  | c :: _ => c.isDigit

theorem digitVal_digitChar {d : Nat} (h : d < 10) : digitVal (digitChar d) = d := by
  interval_cases d <;> rfl

theorem digitChar_isDigit {d : Nat} (h : d < 10) : (digitChar d).isDigit = true := by
  interval_cases d <;> rfl

theorem ne_of_isDigit {c x : Char} (h : c.isDigit = true) (hx : x.isDigit = false) : c ≠ x := by
  intro e; subst e; rw [h] at hx; exact Bool.noConfusion hx

theorem readDigits_append (ds : List Char) (hds : ∀ c ∈ ds, c.isDigit = true)
    (rest : List Char) (hr : digitStart rest = false) (acc : Nat) :
    readDigits acc (ds ++ rest) = (ds.foldl (fun a c => 10 * a + digitVal c) acc, rest) := by
  induction ds generalizing acc with
  | nil =>
    cases rest with
    | nil => rfl
    | cons c t => simp only [digitStart] at hr; simp [readDigits, hr]
  | cons c t ih =>
    simp only [List.cons_append, readDigits, hds c (by simp), if_true, List.foldl_cons]
    exact ih (fun x hx => hds x (by simp [hx])) _

theorem natCharsAux_foldl :
    ∀ fuel n, n ≤ fuel → ∀ acc,
      (natCharsAux fuel n).foldl (fun a c => 10 * a + digitVal c) acc
        = acc * 10 ^ (natCharsAux fuel n).length + n := by
  intro fuel
  induction fuel with
  | zero => intro n hn acc; interval_cases n; simp [natCharsAux]
  | succ f ih =>
    intro n hn acc
    by_cases h0 : n = 0
    · subst h0; simp [natCharsAux]
    · have hdiv : n / 10 < n := Nat.div_lt_self (Nat.pos_of_ne_zero h0) (by norm_num)
      have hmod : n % 10 < 10 := Nat.mod_lt _ (by norm_num)
      simp only [natCharsAux, h0, if_false]
      rw [List.foldl_append, List.foldl_cons, List.foldl_nil,
        ih (n / 10) (by omega) acc, digitVal_digitChar hmod,
        List.length_append, List.length_singleton, pow_succ]
      have := Nat.div_add_mod n 10
      ring_nf
      omega

theorem natCharsAux_digits :
    ∀ fuel n, ∀ c ∈ natCharsAux fuel n, c.isDigit = true := by
  intro fuel
  induction fuel with
  | zero => intro n c hc; simp [natCharsAux] at hc
  | succ f ih =>
    intro n c hc
    by_cases h0 : n = 0
    · simp [natCharsAux, h0] at hc
    · simp only [natCharsAux, h0, if_false, List.mem_append, List.mem_singleton] at hc
      rcases hc with hc | hc
      · exact ih _ c hc
      · subst hc; exact digitChar_isDigit (Nat.mod_lt _ (by norm_num))

theorem natChars_digits (n : Nat) : ∀ c ∈ natChars n, c.isDigit = true := by
  intro c hc
  unfold natChars at hc
  by_cases h0 : n = 0
  · simp [h0] at hc; subst hc; rfl
  · simp only [h0, if_false] at hc; exact natCharsAux_digits _ _ c hc

theorem natChars_foldl (n : Nat) :
    (natChars n).foldl (fun a c => 10 * a + digitVal c) 0 = n := by
  unfold natChars
  by_cases h0 : n = 0
  · subst h0; rfl
  · simp only [h0, if_false]
    rw [natCharsAux_foldl (n + 1) n (by omega) 0]
    simp

theorem readDigits_natChars (n : Nat) (rest : List Char) (hr : digitStart rest = false) :
    readDigits 0 (natChars n ++ rest) = (n, rest) := by
  rw [readDigits_append _ (natChars_digits n) _ hr 0, natChars_foldl]

theorem natChars_ne_nil (n : Nat) : natChars n ≠ [] := by
  unfold natChars
  by_cases h0 : n = 0
  · simp [h0]
  · simp only [h0, if_false, natCharsAux]
    simp [h0]

theorem dropLit_append (lit s : List Char) : dropLit lit (lit ++ s) = some s := by
  induction lit with
  | nil => rfl
  | cons c t ih => simp [dropLit, ih]

theorem parseStrBody_quote (t : List Char) : parseStrBody ('"' :: t) = some ([], t) := by
  rw [parseStrBody.eq_def]
  simp

theorem parseStrBody_backslash (d : Char) (t : List Char) :
    parseStrBody ('\\' :: d :: t) =
      (if d = '"' ∨ d = '\\' then (parseStrBody t).map (fun p => (d :: p.1, p.2)) else none) := by
  rw [parseStrBody.eq_def]
  simp

theorem parseStrBody_other {c : Char} (h1 : c ≠ '"') (h2 : c ≠ '\\') (t : List Char) :
    parseStrBody (c :: t) = (parseStrBody t).map (fun p => (c :: p.1, p.2)) := by
  rw [parseStrBody.eq_def]
  simp only []
  rw [if_neg h1, if_neg h2]

theorem parseStrBody_escape (cs rest : List Char) :
    parseStrBody (escapeChars cs ++ '"' :: rest) = some (cs, rest) := by
  induction cs with
  | nil =>
    show parseStrBody ('"' :: rest) = _
    rw [parseStrBody_quote]
  | cons c t ih =>
    by_cases hc : c = '"' ∨ c = '\\'
    · rw [show escapeChars (c :: t) = '\\' :: c :: escapeChars t from by simp [escapeChars, hc]]
      rw [List.cons_append, List.cons_append, parseStrBody_backslash, if_pos hc, ih]
      rfl
    · push_neg at hc
      rw [show escapeChars (c :: t) = c :: escapeChars t from by
        simp [escapeChars, hc.1, hc.2]]
      rw [List.cons_append, parseStrBody_other hc.1 hc.2, ih]
      rfl

/-! Emptiness and head-shape facts about the serializer. -/

theorem intChars_ne_nil (n : Int) : intChars n ≠ [] := by
  unfold intChars
  split
  · simp
  · exact natChars_ne_nil _

theorem strV_ne_nil (v : JValue) : strV v ≠ [] := by
  cases v with
  | jnull => simp [strV]
  | jbool b => cases b <;> simp [strV]
  | jnum n => simp only [strV]; exact intChars_ne_nil n
  | jstr s => simp [strV]
  | jarr xs => cases xs <;> simp [strV]
  | jobj fs => cases fs <;> simp [strV]

theorem strItems_ne_nil (vs : List JValue) : strItems vs ≠ [] := by
  cases vs <;> simp [strItems]

theorem strFields_ne_nil (fs : List (String × JValue)) : strFields fs ≠ [] := by
  cases fs <;> simp [strFields]

theorem digitStart_strItems (vs : List JValue) (rest : List Char) :
    digitStart (strItems vs ++ rest) = false := by
  cases vs <;> rfl

theorem digitStart_strFields (fs : List (String × JValue)) (rest : List Char) :
    digitStart (strFields fs ++ rest) = false := by
  cases fs <;> rfl

theorem strV_head_ne_rbracket (v : JValue) {d : Char} {t : List Char}
    (h : strV v = d :: t) : d ≠ ']' := by
  cases v with
  | jnull => cases h; decide
  | jbool b => cases b <;> cases h <;> decide
  | jnum n =>
    simp only [strV, intChars] at h
    split at h
    · cases h; decide
    · have hd : d.isDigit = true := by
        have := natChars_digits n.toNat d
        rw [h] at this
        exact this (by simp)
      exact ne_of_isDigit hd (by decide)
  | jstr s => cases h; decide
  | jarr xs => cases xs <;> cases h <;> decide
  | jobj fs => cases fs <;> cases h <;> decide

/-! Branch equations of the parser. -/

theorem parseVal_n (f : Nat) (t : List Char) :
    parseVal (f + 1) ('n' :: t) = (dropLit ['u', 'l', 'l'] t).map (fun r => (JValue.jnull, r)) := by
  simp [parseVal]

theorem parseVal_t (f : Nat) (t : List Char) :
    parseVal (f + 1) ('t' :: t)
      = (dropLit ['r', 'u', 'e'] t).map (fun r => (JValue.jbool true, r)) := by
  simp [parseVal]

theorem parseVal_f (f : Nat) (t : List Char) :
    parseVal (f + 1) ('f' :: t)
      = (dropLit ['a', 'l', 's', 'e'] t).map (fun r => (JValue.jbool false, r)) := by
  simp [parseVal]

theorem parseVal_quote (f : Nat) (t : List Char) :
    parseVal (f + 1) ('"' :: t) = (parseStrBody t).map (fun p => (JValue.jstr ⟨p.1⟩, p.2)) := by
  simp [parseVal]

theorem parseVal_minus (f : Nat) (d : Char) (t : List Char) :
    parseVal (f + 1) ('-' :: d :: t) =
      (if d.isDigit then
        some (JValue.jnum (-((readDigits 0 (d :: t)).1 : Int)), (readDigits 0 (d :: t)).2)
      else none) := by
  simp [parseVal]

theorem parseVal_digit (f : Nat) (c : Char) (t : List Char) (h : c.isDigit = true) :
    parseVal (f + 1) (c :: t)
      = some (JValue.jnum ((readDigits 0 (c :: t)).1 : Int), (readDigits 0 (c :: t)).2) := by
  simp only [parseVal]
  rw [if_neg (ne_of_isDigit h (by decide)), if_neg (ne_of_isDigit h (by decide)),
    if_neg (ne_of_isDigit h (by decide)), if_neg (ne_of_isDigit h (by decide)),
    if_neg (ne_of_isDigit h (by decide)), if_pos h]

theorem parseVal_lbrack (f : Nat) (d : Char) (t : List Char) :
    parseVal (f + 1) ('[' :: d :: t) =
      (if d = ']' then some (JValue.jarr [], t)
       else
         match parseVal f (d :: t) with
         | none => none
         | some (v, r) =>
           match parseArrRest f r with
           | none => none
           | some (vs, r2) => some (JValue.jarr (v :: vs), r2)) := by
  simp [parseVal]

theorem parseVal_lbrace (f : Nat) (d : Char) (t : List Char) :
    parseVal (f + 1) ('{' :: d :: t) =
      (if d = '}' then some (JValue.jobj [], t)
       else
         match parsePairF f (d :: t) with
         | none => none
         | some (p, r) =>
           match parseObjRest f r with
           | none => none
           | some (fs, r2) => some (JValue.jobj (p :: fs), r2)) := by
  simp [parseVal]

theorem parsePairF_quote (f : Nat) (t : List Char) :
    parsePairF (f + 1) ('"' :: t) =
      (match parseStrBody t with
       | none => none
       | some (k, r) =>
         match r with
         | [] => none
         | c2 :: r2 =>
           if c2 = ':' then
             match parseVal f r2 with
             | none => none
             | some (v, r3) => some ((⟨k⟩, v), r3)
           else none) := by
  simp [parsePairF]

theorem parseArrRest_close (f : Nat) (t : List Char) :
    parseArrRest (f + 1) (']' :: t) = some ([], t) := by
  simp [parseArrRest]

theorem parseArrRest_comma (f : Nat) (t : List Char) :
    parseArrRest (f + 1) (',' :: t) =
      (match parseVal f t with
       | none => none
       | some (v, r) =>
         match parseArrRest f r with
         | none => none
         | some (vs, r2) => some (v :: vs, r2)) := by
  simp [parseArrRest]

theorem parseObjRest_close (f : Nat) (t : List Char) :
    parseObjRest (f + 1) ('}' :: t) = some ([], t) := by
  simp [parseObjRest]

theorem parseObjRest_comma (f : Nat) (t : List Char) :
    parseObjRest (f + 1) (',' :: t) =
      (match parsePairF f t with
       | none => none
       | some (p, r) =>
         match parseObjRest f r with
         | none => none
         | some (fs, r2) => some (p :: fs, r2)) := by
  simp [parseObjRest]

/-- Joint round-trip statement for the value, member, array-rest and
object-rest parsers, by induction on the fuel. -/
theorem parse_rt_aux : ∀ fuel : Nat,
    (∀ v rest, (strV v).length ≤ fuel → digitStart rest = false →
        parseVal fuel (strV v ++ rest) = some (v, rest)) ∧
    (∀ k v rest, (strPair (k, v)).length ≤ fuel → digitStart rest = false →
        parsePairF fuel (strPair (k, v) ++ rest) = some ((k, v), rest)) ∧
    (∀ vs rest, (strItems vs).length ≤ fuel →
        parseArrRest fuel (strItems vs ++ rest) = some (vs, rest)) ∧
    (∀ fs rest, (strFields fs).length ≤ fuel →
        parseObjRest fuel (strFields fs ++ rest) = some (fs, rest)) := by
  intro fuel
  induction fuel with
  | zero =>
    refine ⟨fun v rest hlen _ => ?_, fun k v rest hlen _ => ?_,
      fun vs rest hlen => ?_, fun fs rest hlen => ?_⟩
    · have := List.length_pos.mpr (strV_ne_nil v); omega
    · have : 0 < (strPair (k, v)).length := by simp [strPair]
      omega
    · have := List.length_pos.mpr (strItems_ne_nil vs); omega
    · have := List.length_pos.mpr (strFields_ne_nil fs); omega
  | succ f ih =>
    obtain ⟨ihV, ihP, ihA, ihO⟩ := ih
    refine ⟨fun v rest hlen hrest => ?_, fun k v rest hlen hrest => ?_,
      fun vs rest hlen => ?_, fun fs rest hlen => ?_⟩
    · cases v with
      | jnull =>
        show parseVal (f + 1) (('n' :: ['u', 'l', 'l']) ++ rest) = _
        rw [List.cons_append, parseVal_n]
        have h : ('u' :: 'l' :: 'l' :: rest) = ['u', 'l', 'l'] ++ rest := rfl
        rw [show (['u', 'l', 'l'] : List Char) ++ rest = 'u' :: 'l' :: 'l' :: rest from rfl,
          h, dropLit_append]
        rfl
      | jbool b =>
        cases b
        · show parseVal (f + 1) (('f' :: ['a', 'l', 's', 'e']) ++ rest) = _
          rw [List.cons_append, parseVal_f]
          rw [show (['a', 'l', 's', 'e'] : List Char) ++ rest = 'a' :: 'l' :: 's' :: 'e' :: rest
            from rfl]
          rw [show ('a' :: 'l' :: 's' :: 'e' :: rest) = ['a', 'l', 's', 'e'] ++ rest from rfl,
            dropLit_append]
          rfl
        · show parseVal (f + 1) (('t' :: ['r', 'u', 'e']) ++ rest) = _
          rw [List.cons_append, parseVal_t]
          rw [show (['r', 'u', 'e'] : List Char) ++ rest = 'r' :: 'u' :: 'e' :: rest from rfl]
          rw [show ('r' :: 'u' :: 'e' :: rest) = ['r', 'u', 'e'] ++ rest from rfl, dropLit_append]
          rfl
      | jnum n =>
        show parseVal (f + 1) (intChars n ++ rest) = _
        unfold intChars
        by_cases hneg : n < 0
        · rw [if_pos hneg]
          obtain ⟨d, tv, hv⟩ := List.exists_cons_of_ne_nil (natChars_ne_nil n.natAbs)
          rw [hv, List.cons_append, List.cons_append]
          have hd : d.isDigit = true := natChars_digits n.natAbs d (by rw [hv]; simp)
          rw [parseVal_minus, if_pos hd]
          rw [show (d :: (tv ++ rest)) = (d :: tv) ++ rest from rfl, ← hv,
            readDigits_natChars _ _ hrest]
          have he : -((n.natAbs : Int)) = n := by omega
          rw [he]
        · rw [if_neg hneg]
          obtain ⟨d, tv, hv⟩ := List.exists_cons_of_ne_nil (natChars_ne_nil n.toNat)
          have hd : d.isDigit = true := natChars_digits n.toNat d (by rw [hv]; simp)
          rw [hv, List.cons_append, parseVal_digit f d (tv ++ rest) hd]
          rw [show (d :: (tv ++ rest)) = (d :: tv) ++ rest from rfl, ← hv,
            readDigits_natChars _ _ hrest]
          have he : ((n.toNat : Int)) = n := Int.toNat_of_nonneg (by omega)
          rw [he]
      | jstr s =>
        show parseVal (f + 1) (('"' :: (escapeChars s.data ++ ['"'])) ++ rest) = _
        rw [List.cons_append, parseVal_quote, List.append_assoc,
          show (['"'] : List Char) ++ rest = '"' :: rest from rfl, parseStrBody_escape]
        rfl
      | jarr xs =>
        cases xs with
        | nil =>
          show parseVal (f + 1) (('[' :: [']']) ++ rest) = _
          rw [List.cons_append, show ([']'] : List Char) ++ rest = ']' :: rest from rfl,
            parseVal_lbrack, if_pos rfl]
        | cons v vs =>
          have hlen2 : (strV v).length + (strItems vs).length + 1 ≤ f + 1 := by
            have h : strV (JValue.jarr (v :: vs)) = '[' :: (strV v ++ strItems vs) := rfl
            rw [h] at hlen
            simpa using hlen
          have h0 := List.length_pos.mpr (strV_ne_nil v)
          have h1 := List.length_pos.mpr (strItems_ne_nil vs)
          obtain ⟨d, tv, hv⟩ := List.exists_cons_of_ne_nil (strV_ne_nil v)
          show parseVal (f + 1) (('[' :: (strV v ++ strItems vs)) ++ rest) = _
          rw [List.cons_append, List.append_assoc, hv, List.cons_append,
            parseVal_lbrack, if_neg (strV_head_ne_rbracket v hv),
            show (d :: (tv ++ (strItems vs ++ rest))) = (d :: tv) ++ (strItems vs ++ rest)
              from rfl, ← hv]
          simp [ihV v (strItems vs ++ rest) (by omega) (digitStart_strItems vs rest),
            ihA vs rest (by omega)]
      | jobj fs =>
        cases fs with
        | nil =>
          show parseVal (f + 1) (('{' :: ['}']) ++ rest) = _
          rw [List.cons_append, show (['}'] : List Char) ++ rest = '}' :: rest from rfl,
            parseVal_lbrace, if_pos rfl]
        | cons p fs =>
          obtain ⟨k, v⟩ := p
          have hlen2 : (strPair (k, v)).length + (strFields fs).length + 1 ≤ f + 1 := by
            have h : strV (JValue.jobj ((k, v) :: fs)) = '{' :: (strPair (k, v) ++ strFields fs)
              := rfl
            rw [h] at hlen
            simpa using hlen
          have h0 : 0 < (strPair (k, v)).length := by simp [strPair]
          have h1 := List.length_pos.mpr (strFields_ne_nil fs)
          have hp : strPair (k, v) = '"' :: (escapeChars k.data ++ '"' :: ':' :: strV v) := rfl
          have hP := ihP k v (strFields fs ++ rest) (by omega) (digitStart_strFields fs rest)
          rw [hp] at hP
          simp only [List.cons_append, List.append_assoc] at hP
          show parseVal (f + 1) (('{' :: (strPair (k, v) ++ strFields fs)) ++ rest) = _
          rw [List.cons_append, List.append_assoc, hp, List.cons_append, parseVal_lbrace,
            if_neg (by decide)]
          simp only [List.cons_append, List.append_assoc]
          simp [hP, ihO fs rest (by omega)]
    · have hp : strPair (k, v) = '"' :: (escapeChars k.data ++ '"' :: ':' :: strV v) := rfl
      have hlen2 : (strV v).length + 3 ≤ f + 1 := by
        rw [hp] at hlen
        simp only [List.length_cons, List.length_append] at hlen
        omega
      rw [hp, List.cons_append, parsePairF_quote, List.append_assoc,
        show (('"' :: ':' :: strV v) ++ rest) = '"' :: (':' :: (strV v ++ rest)) from by
          simp,
        parseStrBody_escape]
      simp [ihV v rest (by omega) hrest]
    · cases vs with
      | nil =>
        show parseArrRest (f + 1) (([']'] : List Char) ++ rest) = _
        rw [show ([']'] : List Char) ++ rest = ']' :: rest from rfl, parseArrRest_close]
      | cons v t =>
        have hlen2 : (strV v).length + (strItems t).length + 1 ≤ f + 1 := by
          have h : strItems (v :: t) = ',' :: (strV v ++ strItems t) := rfl
          rw [h] at hlen
          simpa using hlen
        have h0 := List.length_pos.mpr (strV_ne_nil v)
        have h1 := List.length_pos.mpr (strItems_ne_nil t)
        show parseArrRest (f + 1) ((',' :: (strV v ++ strItems t)) ++ rest) = _
        rw [List.cons_append, List.append_assoc, parseArrRest_comma]
        simp [ihV v (strItems t ++ rest) (by omega) (digitStart_strItems t rest),
          ihA t rest (by omega)]
    · cases fs with
      | nil =>
        show parseObjRest (f + 1) ((['}'] : List Char) ++ rest) = _
        rw [show (['}'] : List Char) ++ rest = '}' :: rest from rfl, parseObjRest_close]
      | cons p t =>
        obtain ⟨k, v⟩ := p
        have hlen2 : (strPair (k, v)).length + (strFields t).length + 1 ≤ f + 1 := by
          have h : strFields ((k, v) :: t) = ',' :: (strPair (k, v) ++ strFields t) := rfl
          rw [h] at hlen
          simpa using hlen
        have h0 : 0 < (strPair (k, v)).length := by simp [strPair]
        have h1 := List.length_pos.mpr (strFields_ne_nil t)
        show parseObjRest (f + 1) ((',' :: (strPair (k, v) ++ strFields t)) ++ rest) = _
        rw [List.cons_append, List.append_assoc, parseObjRest_comma]
        simp [ihP k v (strFields t ++ rest) (by omega) (digitStart_strFields t rest),
          ihO t rest (by omega)]

/-- Round trip of the JSON codec: parsing a serialized value recovers it. -/
theorem parseJson_stringify (v : JValue) : parseJson (jsonStringify v) = some v := by
  have h := (parse_rt_aux ((strV v).length + 1)).1 v [] (by omega) rfl
  rw [List.append_nil] at h
  unfold parseJson jsonStringify
  simp only
  rw [h]

theorem parseVal_H (fuel : Nat) (t : List Char) : parseVal fuel ('H' :: t) = none := by
  cases fuel with
  | zero => simp [parseVal]
  | succ f => simp [parseVal]

theorem strV_head_cases (v : JValue) {d : Char} {t : List Char} (h : strV v = d :: t) :
    d = 'n' ∨ d = 't' ∨ d = 'f' ∨ d = '"' ∨ d = '-' ∨ d.isDigit = true ∨ d = '[' ∨ d = '{' := by
  cases v with
  | jnull => cases h; decide
  | jbool b => cases b <;> cases h <;> decide
  | jnum n =>
    simp only [strV, intChars] at h
    split at h
    · cases h; decide
    · have hd : d.isDigit = true := by
        have := natChars_digits n.toNat d
        rw [h] at this
        exact this (by simp)
      exact Or.inr (Or.inr (Or.inr (Or.inr (Or.inr (Or.inl hd)))))
  | jstr s => cases h; decide
  | jarr xs => cases xs <;> cases h <;> decide
  | jobj fs => cases fs <;> cases h <;> decide

theorem strV_head_ne_H (v : JValue) {d : Char} {t : List Char} (h : strV v = d :: t) :
    d ≠ 'H' := by
  rcases strV_head_cases v h with rfl | rfl | rfl | rfl | rfl | hd | rfl | rfl
  · decide
  · decide
  · decide
  · decide
  · decide
  · exact ne_of_isDigit hd (by decide)
  · decide
  · decide

/-! ## gzip + base64 (modelled) -/

/-- Digit rendering of a character sequence into the base64 alphabet. -/
def b64Digits : List Char → List Char
  | [] => []
  | c :: t => natChars c.toNat ++ '+' :: b64Digits t

/-- Modelled from the spec: `zlib.gzipSync(s).toString(base64)`. gzip output
always carries the two-byte gzip magic header, whose base64 rendering starts
with `H4sI`; the model is an injective encoding into the base64 alphabet
behind that header (actual compression is not modelled — no claim depends on
the compressed size). -/
def gzipBase64 (s : String) : String :=
  ⟨'H' :: '4' :: 's' :: 'I' :: b64Digits s.data⟩

/-- Decode the digit rendering produced by `b64Digits`. -/
def unb64Digits : Nat → List Char → Option (List Char)
  | _, [] => some []
  | 0, _ :: _ => none
  | fuel + 1, c :: t =>
    if c.isDigit then
      match (readDigits 0 (c :: t)).2 with
      | '+' :: r2 => (unb64Digits fuel r2).map (fun cs => Char.ofNat (readDigits 0 (c :: t)).1 :: cs)
      | _ => none
    else none

/-- Modelled from the spec: `zlib.gunzipSync(Buffer.from(s, base64))`.
The Node call throws on data that does not carry the gzip magic header;
the model rejects any input not starting with `H4sI`. -/
def gunzipBase64 (s : String) : Option String :=
  match dropLit ['H', '4', 's', 'I'] s.data with
  | none => none
  | some rest => (unb64Digits rest.length rest).map (fun cs => (⟨cs⟩ : String))

theorem b64Digits_length (cs : List Char) : cs.length ≤ (b64Digits cs).length := by
  induction cs with
  | nil => simp [b64Digits]
  | cons c t ih =>
    have := List.length_pos.mpr (natChars_ne_nil c.toNat)
    simp only [b64Digits, List.length_cons, List.length_append]
    omega

theorem unb64Digits_b64Digits :
    ∀ (cs : List Char) (fuel : Nat), cs.length ≤ fuel →
      unb64Digits fuel (b64Digits cs) = some cs := by
  intro cs
  induction cs with
  | nil => intro fuel _; cases fuel <;> simp [b64Digits, unb64Digits]
  | cons c t ih =>
    intro fuel hf
    cases fuel with
    | zero => simp at hf
    | succ f =>
      obtain ⟨d, tv, hv⟩ := List.exists_cons_of_ne_nil (natChars_ne_nil c.toNat)
      have hd : d.isDigit = true := natChars_digits c.toNat d (by rw [hv]; simp)
      have hread : readDigits 0 (natChars c.toNat ++ '+' :: b64Digits t)
          = (c.toNat, '+' :: b64Digits t) := readDigits_natChars _ _ (by rfl)
      rw [show b64Digits (c :: t) = natChars c.toNat ++ '+' :: b64Digits t from rfl, hv,
        List.cons_append]
      rw [unb64Digits.eq_def]
      simp only [hd, if_true]
      rw [show (d :: (tv ++ '+' :: b64Digits t)) = (d :: tv) ++ '+' :: b64Digits t from rfl,
        ← hv, hread]
      simp only
      rw [ih f (by simpa using hf)]
      simp [Char.ofNat_toNat]


theorem gunzipBase64_gzipBase64 (s : String) : gunzipBase64 (gzipBase64 s) = some s := by
  unfold gunzipBase64 gzipBase64
  rw [show ('H' :: '4' :: 's' :: 'I' :: b64Digits s.data : List Char)
      = ['H', '4', 's', 'I'] ++ b64Digits s.data from rfl]
  rw [dropLit_append]
  simp only
  rw [unb64Digits_b64Digits s.data _ (b64Digits_length s.data)]
  rfl

theorem gunzipBase64_stringify (v : JValue) : gunzipBase64 (jsonStringify v) = none := by
  unfold gunzipBase64 jsonStringify
  obtain ⟨d, tv, hv⟩ := List.exists_cons_of_ne_nil (strV_ne_nil v)
  simp only [hv]
  rw [show dropLit ['H', '4', 's', 'I'] (d :: tv)
      = if d = 'H' then dropLit ['4', 's', 'I'] tv else none from rfl]
  rw [if_neg (strV_head_ne_H v hv)]

theorem parseJson_gzipBase64 (s : String) : parseJson (gzipBase64 s) = none := by
  unfold parseJson gzipBase64
  simp only
  rw [parseVal_H]

/-! ## Cryptographic primitives (modelled) -/

/-- Modelled from the spec: Node `crypto.pbkdf2Sync(keyData, salt, 100000, 32, sha512)`
at `loadOrGenerateKey` — the Node primitive is not part of the repository.
Modelled as an injective combination of key material and salt: derivation is
deterministic, and for a fixed key material distinct salts give distinct
derived keys. The iteration count and hash internals are not modelled. -/
def pbkdf2Model (password salt : List Nat) : List Nat :=
  password.length :: (password ++ salt)

theorem pbkdf2Model_salt_inj (password s1 s2 : List Nat) :
    pbkdf2Model password s1 = pbkdf2Model password s2 ↔ s1 = s2 := by
  unfold pbkdf2Model
  constructor
  · intro h
    have h2 := List.cons_injective h
    exact List.append_cancel_left h2
  · intro h; rw [h]

/-- Modelled from the spec: an AES-256-GCM authentication tag. An ideal AEAD
tag is the tuple of key, IV, additional authenticated data and ciphertext, so
verification succeeds exactly for the parameters the blob was produced with. -/
structure GcmTag where
  key : List Nat
  iv : List Nat
  aad : String
  ct : String
deriving DecidableEq, Repr

/-- Modelled from the spec: AES-256-GCM encryption (`crypto.createCipheriv`
with `cipher.update`/`cipher.final`/`getAuthTag`). Confidentiality is not the
subject of any claim, so the ciphertext is modelled as the plaintext together
with the ideal tag; the hex transport encoding is dropped. -/
def gcmEncrypt (key iv : List Nat) (aad plain : String) : String × GcmTag :=
  (plain, ⟨key, iv, aad, plain⟩)

/-- Modelled from the spec: AES-256-GCM decryption with tag verification
(`crypto.createDecipheriv` with `setAuthTag`; the Node call throws exactly
when the tag does not verify against key, IV, AAD and ciphertext). -/
def gcmDecrypt (key iv : List Nat) (aad ct : String) (tag : GcmTag) : Option String :=
  if tag = ⟨key, iv, aad, ct⟩ then some ct else none

theorem gcmDecrypt_gcmEncrypt (key iv : List Nat) (aad plain : String) :
    gcmDecrypt key iv aad (gcmEncrypt key iv aad plain).1 (gcmEncrypt key iv aad plain).2
      = some plain := by
  simp [gcmEncrypt, gcmDecrypt]

/-! ## JavaScript object-model helpers -/

/-- Field lookup on a JSON object field list (JavaScript property read;
`none` plays the role of `undefined`). -/
def lookupField : List (String × JValue) → String → Option JValue
  | [], _ => none
  | (k, v) :: t, key => if k = key then some v else lookupField t key

/-- Property read `v[key]` on a JSON value: only objects carry properties. -/
def getProp (v : JValue) (key : String) : Option JValue :=
  match v with
  | .jobj fs => lookupField fs key
  | _ => none

/-- JavaScript truthiness of a possibly-absent JSON value. -/
def jsTruthy : Option JValue → Bool
  | none => false
  | some .jnull => false
  | some (.jbool b) => b
  | some (.jnum n) => decide (n ≠ 0)
  | some (.jstr s) => decide (s ≠ "")
  | some (.jarr _) => true
  | some (.jobj _) => true

/-- JavaScript property write: an existing key is updated in place, a new key
is appended (JS object key insertion order). -/
def setField : List (String × JValue) → String → JValue → List (String × JValue)
  | [], key, v => [(key, v)]
  | (k, w) :: t, key, v => if k = key then (key, v) :: t else (k, w) :: setField t key v

/-- The effect of the statement `data._compressed = true` from `encrypt`,
together with the value a subsequent `data._compressed` read yields:
on an object the field is set; on an array the property is attached (visible
to reads, invisible to `JSON.stringify`); on a primitive the write is a
silent no-op. -/
def setCompressedTrue : JValue → JValue × Bool
  | .jobj fs => (.jobj (setField fs "_compressed" (.jbool true)), true)
  | .jarr xs => (.jarr xs, true)
  | v => (v, jsTruthy (getProp v "_compressed"))


/-! ## EncryptedStateManager (`src/workflows/engine/state.js`) -/

/-- The persisted `EncryptedBlob` envelope (hex fields modelled at the
byte/string level). -/
structure StateBlob where
  iv : List Nat
  encrypted : String
  authTag : GcmTag
  algorithm : String
  compressed : Bool
  timestamp : Nat
deriving DecidableEq, Repr

/-- Constructor options of `EncryptedStateManager` (`undefined` = `none`). -/
structure StateOptions where
  stateDir : Option String := none
  salt : Option (List Nat) := none
  compression : Option Bool := none
  maxStateSize : Option Nat := none
  encryptionKey : Option (List Nat) := none

/-- The `EncryptedStateManager` instance state set up by the constructor. -/
structure StateManager where
  stateDir : String
  algorithm : String
  keyDerivationSalt : List Nat
  compressionEnabled : Bool
  maxStateSize : Nat
  encryptionKey : List Nat

/-- `loadOrGenerateKey`: read the raw key-material file if present, otherwise
generate new material (the explicit `randomNewKey` input) and write it to the
key file; either way the cipher key is the PBKDF2 derivation of the raw
material with the manager's salt. Returns the derived key together with the
bytes newly written to the key file, if any (logging is not modelled). -/
def loadOrGenerateKey (keyFile : Option (List Nat)) (salt randomNewKey : List Nat) :
    List Nat × Option (List Nat) :=
  match keyFile with
  | some keyData => (pbkdf2Model keyData salt, none)
  | none => (pbkdf2Model randomNewKey salt, some randomNewKey)

/-- The `EncryptedStateManager` constructor. `randomSalt` and `randomNewKey`
are the explicit values of the two possible `crypto.randomBytes(32)` draws;
`keyFile` is the current content of `~/.vaultace/secureflow.key`. The async
`init` call only creates directories and is not modelled. -/
def mkStateManager (options : StateOptions) (keyFile : Option (List Nat))
    (randomSalt randomNewKey : List Nat) : StateManager :=
  let salt := options.salt.getD randomSalt
  { stateDir := options.stateDir.getD "~/.vaultace/workflows/state"
    algorithm := "aes-256-gcm"
    keyDerivationSalt := salt
    compressionEnabled := (match options.compression with
      | some false => false
      | _ => true)
    maxStateSize := (match options.maxStateSize with
      | some n => if n = 0 then 52428800 else n
      | none => 52428800)
    encryptionKey := (match options.encryptionKey with
      | some k => k
      | none => (loadOrGenerateKey keyFile salt randomNewKey).1) }

/-- `encrypt(data)`: serialize, optionally gzip-compress (the over-1KB branch
also mutates the caller's payload via `data._compressed = true`, after
serialization), then AES-256-GCM encrypt with the fixed AAD
`vaultace-secureflow`. `iv` is the explicit value of the
`crypto.randomBytes(16)` draw and `now` the value of `Date.now()`. Returns
the blob together with the payload as the caller observes it afterwards
(the mutation effect made explicit). -/
def stateEncrypt (mgr : StateManager) (iv : List Nat) (now : Nat) (payload : JValue) :
    StateBlob × JValue :=
  let serialized := jsonStringify payload
  if mgr.compressionEnabled ∧ serialized.length > 1024 then
    let serialized2 := gzipBase64 serialized
    let pr := setCompressedTrue payload
    let ec := gcmEncrypt mgr.encryptionKey iv "vaultace-secureflow" serialized2
    ({ iv := iv, encrypted := ec.1, authTag := ec.2, algorithm := mgr.algorithm,
       compressed := pr.2, timestamp := now }, pr.1)
  else
    let ec := gcmEncrypt mgr.encryptionKey iv "vaultace-secureflow" serialized
    ({ iv := iv, encrypted := ec.1, authTag := ec.2, algorithm := mgr.algorithm,
       compressed := jsTruthy (getProp payload "_compressed"), timestamp := now }, payload)

/-- `decrypt(encryptedData)`: AES-256-GCM decrypt with tag verification and
the fixed AAD, optional gunzip, then `JSON.parse`; the catch-all converts any
failure into the error `Failed to decrypt state data`. -/
def stateDecrypt (mgr : StateManager) (blob : StateBlob) : Except String JValue :=
  match gcmDecrypt mgr.encryptionKey blob.iv "vaultace-secureflow" blob.encrypted blob.authTag with
  | none => .error "Failed to decrypt state data"
  | some decrypted =>
    match (if blob.compressed then gunzipBase64 decrypted else some decrypted) with
    | none => .error "Failed to decrypt state data"
    | some serialized =>
      match parseJson serialized with
      | none => .error "Failed to decrypt state data"
      | some v => .ok v

/-- The executions namespace on disk: file path to stored blob. The JSON text
envelope of the blob inside the file is collapsed (saves write
`JSON.stringify(encryptedState)` and loads re-parse it; an envelope parse
failure falls into the same catch-all as a decryption failure). -/
def FileStore := List (String × StateBlob)

/-- File lookup (`fs.pathExists` + `fs.readFile`). -/
def lookupFile : FileStore → String → Option StateBlob
  | [], _ => none
  | (p, b) :: t, path => if p = path then some b else lookupFile t path

/-- `path.join(this.stateDir, executions, executionId.state)`. -/
def executionStatePath (mgr : StateManager) (executionId : String) : String :=
  mgr.stateDir ++ "/executions/" ++ executionId ++ ".state"

/-- `loadExecutionState(executionId)`: `null` when the state file is absent;
otherwise decrypt the stored blob — the catch-all swallows every load or
decryption error, logs it, and returns `null`. -/
def loadExecutionState (mgr : StateManager) (files : FileStore) (executionId : String) :
    Option JValue :=
  match lookupFile files (executionStatePath mgr executionId) with
  | none => none
  | some blob =>
    match stateDecrypt mgr blob with
    | .ok state => some state
    | .error _ => none

/-- Whether a JSON value is object-like in the JavaScript sense
(`typeof x === "object"`: objects and arrays). -/
def isObjectLike : JValue → Bool
  | .jobj _ => true
  | .jarr _ => true
  | _ => false

/-- Whether a JSON value is a primitive (cannot carry properties). -/
def isPrimitive : JValue → Bool
  | .jobj _ => false
  | .jarr _ => false
  | _ => true

/-- Plumbing lemma: decrypting a blob produced by `stateEncrypt`'s cipher
step with the same manager reduces to decompression plus parsing. -/
theorem stateDecrypt_own_blob (mgr : StateManager) (iv : List Nat) (now : Nat)
    (plain : String) (flag : Bool) :
    stateDecrypt mgr
        { iv := iv, encrypted := (gcmEncrypt mgr.encryptionKey iv "vaultace-secureflow" plain).1,
          authTag := (gcmEncrypt mgr.encryptionKey iv "vaultace-secureflow" plain).2,
          algorithm := mgr.algorithm, compressed := flag, timestamp := now }
      = match (if flag then gunzipBase64 plain else some plain) with
        | none => Except.error "Failed to decrypt state data"
        | some serialized =>
          match parseJson serialized with
          | none => Except.error "Failed to decrypt state data"
          | some v => Except.ok v := by
  unfold stateDecrypt
  simp only [gcmEncrypt]
  rw [show gcmDecrypt mgr.encryptionKey iv "vaultace-secureflow" plain
        ⟨mgr.encryptionKey, iv, "vaultace-secureflow", plain⟩ = some plain from by
    simp [gcmDecrypt]]


/-! ## Claims about the state layer -/

/-- A fixed state manager for concrete scenarios: default options, existing
key file `[1]`, salt draw `[2]`, fresh-key draw `[3]`. -/
def mgrW : StateManager := mkStateManager {} (some [1]) [2] [3]

/-- C1 (code bug): two `EncryptedStateManager` instances constructed over the
same raw key-material file, with no options, derive their cipher keys with
per-instance random salts (`options.salt || crypto.randomBytes(32)`), so the
derived AES keys differ and the second instance fails to decrypt a blob the
first one encrypted — key derivation is not deterministic across instances,
contrary to the fixed-salt derivation the specification describes. -/
theorem c1_key_derivation_not_deterministic :
    (mkStateManager {} (some [1, 2, 3]) [7] [0]).encryptionKey
        ≠ (mkStateManager {} (some [1, 2, 3]) [8] [0]).encryptionKey ∧
      stateDecrypt (mkStateManager {} (some [1, 2, 3]) [8] [0])
          (stateEncrypt (mkStateManager {} (some [1, 2, 3]) [7] [0]) [9] 0
            (JValue.jobj [("k", JValue.jstr "v")])).1
        = Except.error "Failed to decrypt state data" := by
  exact ⟨by decide, rfl⟩

/-- C1 positive side: derivation itself is deterministic in its inputs —
with equal salts the same key file always yields the same cipher key. -/
theorem c1_same_salt_same_key (options : StateOptions) (kd : List Nat)
    (rs rk rs2 rk2 : List Nat) (hsalt : options.salt.getD rs = options.salt.getD rs2) :
    (mkStateManager options (some kd) rs rk).encryptionKey
      = (mkStateManager options (some kd) rs2 rk2).encryptionKey := by
  unfold mkStateManager loadOrGenerateKey
  cases options.encryptionKey <;> simp_all

/-- C2 (counterexample): a payload under the 1KB threshold whose own
`_compressed` field is truthy: `encrypt` applies no compression but flags the
blob as compressed, so `decrypt` attempts gunzip on plain JSON and fails —
the round trip does not return the payload. -/
theorem c2_roundtrip_counterexample :
    (jsonStringify (JValue.jobj [("_compressed", JValue.jbool true)])).length ≤ 1024 ∧
      stateDecrypt mgrW
          (stateEncrypt mgrW [4] 0 (JValue.jobj [("_compressed", JValue.jbool true)])).1
        = Except.error "Failed to decrypt state data" ∧
      stateDecrypt mgrW
          (stateEncrypt mgrW [4] 0 (JValue.jobj [("_compressed", JValue.jbool true)])).1
        ≠ Except.ok (JValue.jobj [("_compressed", JValue.jbool true)]) := by
  refine ⟨by decide, rfl, ?_⟩
  intro h
  rw [show stateDecrypt mgrW
      (stateEncrypt mgrW [4] 0 (JValue.jobj [("_compressed", JValue.jbool true)])).1
      = Except.error "Failed to decrypt state data" from rfl] at h
  exact Except.noConfusion h

/-- C2 (amended): with compression enabled, `decrypt(encrypt(x)) = x` holds
exactly when either the serialized payload is at most 1024 characters and
carries no truthy `_compressed` property, or it exceeds 1024 characters and
the payload is object-like (an object or array). Primitives over the
threshold and small payloads with a truthy `_compressed` field fail to
round-trip. -/
theorem c2_roundtrip_characterization (mgr : StateManager) (iv : List Nat) (now : Nat)
    (payload : JValue) (hc : mgr.compressionEnabled = true) :
    (stateDecrypt mgr (stateEncrypt mgr iv now payload).1 = Except.ok payload ↔
      (if (jsonStringify payload).length > 1024
       then isObjectLike payload = true
       else jsTruthy (getProp payload "_compressed") = false)) := by
  by_cases hlen : (jsonStringify payload).length > 1024
  · rw [if_pos hlen]
    have hE : (stateEncrypt mgr iv now payload).1 =
        { iv := iv,
          encrypted := (gcmEncrypt mgr.encryptionKey iv "vaultace-secureflow"
            (gzipBase64 (jsonStringify payload))).1,
          authTag := (gcmEncrypt mgr.encryptionKey iv "vaultace-secureflow"
            (gzipBase64 (jsonStringify payload))).2,
          algorithm := mgr.algorithm, compressed := (setCompressedTrue payload).2,
          timestamp := now } := by
      unfold stateEncrypt
      rw [if_pos ⟨by rw [hc], hlen⟩]
    rw [hE, stateDecrypt_own_blob]
    cases payload <;>
      simp [setCompressedTrue, getProp, jsTruthy, isObjectLike,
        gunzipBase64_gzipBase64, parseJson_stringify, parseJson_gzipBase64]
  · rw [if_neg hlen]
    have hE : (stateEncrypt mgr iv now payload).1 =
        { iv := iv,
          encrypted := (gcmEncrypt mgr.encryptionKey iv "vaultace-secureflow"
            (jsonStringify payload)).1,
          authTag := (gcmEncrypt mgr.encryptionKey iv "vaultace-secureflow"
            (jsonStringify payload)).2,
          algorithm := mgr.algorithm,
          compressed := jsTruthy (getProp payload "_compressed"),
          timestamp := now } := by
      unfold stateEncrypt
      rw [if_neg (fun hand => hlen hand.2)]
    rw [hE, stateDecrypt_own_blob]
    by_cases ht : jsTruthy (getProp payload "_compressed") = true
    · simp [ht, gunzipBase64_stringify]
    · have ht2 : jsTruthy (getProp payload "_compressed") = false := by
        simpa using ht
      simp [ht2, parseJson_stringify]

/-- Witness for the amended C2: a small object with no `_compressed` field
round-trips, discharging the compression-enabled hypothesis on `mgrW`. -/
theorem c2_roundtrip_witness :
    stateDecrypt mgrW (stateEncrypt mgrW [4] 0 (JValue.jobj [("k", JValue.jstr "v")])).1
      = Except.ok (JValue.jobj [("k", JValue.jstr "v")]) := by
  rw [(c2_roundtrip_characterization mgrW [4] 0 (JValue.jobj [("k", JValue.jstr "v")])
    (by decide)).2 (by decide)]


/-- C10: `encrypt` mutates its argument. With compression enabled, an object
payload serializing beyond 1024 characters gets `_compressed = true` set on
the caller's object itself — after serialization, so the ciphertext still
carries the original serialization; an object-like payload at or under the
threshold is left unchanged; a primitive payload over the threshold cannot
carry the flag, so it is left unchanged and the blob's `compressed` field
stays `false` even though compression was applied. -/
theorem c10_encrypt_mutates_payload (mgr : StateManager) (iv : List Nat) (now : Nat)
    (hc : mgr.compressionEnabled = true) :
    (∀ fs, (jsonStringify (JValue.jobj fs)).length > 1024 →
        (stateEncrypt mgr iv now (JValue.jobj fs)).2
            = JValue.jobj (setField fs "_compressed" (JValue.jbool true)) ∧
          (stateEncrypt mgr iv now (JValue.jobj fs)).1.encrypted
            = gzipBase64 (jsonStringify (JValue.jobj fs))) ∧
    (∀ payload, isObjectLike payload = true → (jsonStringify payload).length ≤ 1024 →
        (stateEncrypt mgr iv now payload).2 = payload) ∧
    (∀ payload, isPrimitive payload = true → (jsonStringify payload).length > 1024 →
        (stateEncrypt mgr iv now payload).2 = payload ∧
          (stateEncrypt mgr iv now payload).1.compressed = false ∧
          (stateEncrypt mgr iv now payload).1.encrypted
            = gzipBase64 (jsonStringify payload)) := by
  refine ⟨fun fs hlen => ?_, fun payload hobj hlen => ?_, fun payload hprim hlen => ?_⟩
  · unfold stateEncrypt
    rw [if_pos ⟨by rw [hc], hlen⟩]
    exact ⟨rfl, rfl⟩
  · unfold stateEncrypt
    rw [if_neg (fun hand => by omega)]
  · unfold stateEncrypt
    rw [if_pos ⟨by rw [hc], hlen⟩]
    cases payload with
    | jobj fs => simp [isPrimitive] at hprim
    | jarr xs => simp [isPrimitive] at hprim
    | jnull => exact ⟨rfl, rfl, rfl⟩
    | jbool b => exact ⟨rfl, rfl, rfl⟩
    | jnum n => exact ⟨rfl, rfl, rfl⟩
    | jstr str => exact ⟨rfl, rfl, rfl⟩

/-- A string payload of 1100 characters, beyond the compression threshold. -/
def longStr : String := ⟨List.replicate 1100 'a'⟩

set_option maxRecDepth 40000 in
/-- Witness for C10 at concrete inputs: a large object gets the flag set on
itself, a small object is untouched, and a large string payload leaves the
blob's `compressed` field `false`. -/
theorem c10_encrypt_mutates_payload_witness :
    (stateEncrypt mgrW [4] 0 (JValue.jobj [("a", JValue.jstr longStr)])).2
        = JValue.jobj (setField [("a", JValue.jstr longStr)] "_compressed" (JValue.jbool true)) ∧
      (stateEncrypt mgrW [4] 0 (JValue.jobj [("k", JValue.jstr "v")])).2
        = JValue.jobj [("k", JValue.jstr "v")] ∧
      (stateEncrypt mgrW [4] 0 (JValue.jstr longStr)).1.compressed = false := by
  refine ⟨((c10_encrypt_mutates_payload mgrW [4] 0 (by decide)).1 [("a", JValue.jstr longStr)]
      (by decide)).1,
    (c10_encrypt_mutates_payload mgrW [4] 0 (by decide)).2.1 (JValue.jobj [("k", JValue.jstr "v")])
      (by decide) (by decide),
    ((c10_encrypt_mutates_payload mgrW [4] 0 (by decide)).2.2 (JValue.jstr longStr)
      (by decide) (by decide)).2.1⟩

/-- A well-formed blob encrypted by `mgrW` for the C3 scenario. -/
def goodBlob : StateBlob := (stateEncrypt mgrW [4] 5 (JValue.jobj [("step", JValue.jnum 1)])).1

/-- The same blob with a tampered authentication tag. -/
def badBlob : StateBlob :=
  { goodBlob with authTag := { goodBlob.authTag with key := [9, 9] } }

/-- C3 (counterexample): a state file that exists but whose blob fails
authentication makes `loadExecutionState` return `null` — the corruption is
swallowed, so `null` does not mean "no state file exists". -/
theorem c3_load_swallows_corruption :
    (lookupFile [(executionStatePath mgrW "exec1", badBlob)]
        (executionStatePath mgrW "exec1")).isSome = true ∧
      loadExecutionState mgrW [(executionStatePath mgrW "exec1", badBlob)] "exec1" = none := by
  exact ⟨rfl, rfl⟩

/-- C3 (amended): `loadExecutionState` returns `null` when the state file is
absent, and also whenever the stored blob fails to decrypt (tamper, wrong
key, corruption) — the error is logged and swallowed rather than propagated,
so a caller cannot distinguish "no prior state" from corruption; when the
blob decrypts, the state is returned. -/
theorem c3_load_null_on_absent_or_corrupt (mgr : StateManager) (files : FileStore)
    (executionId : String) :
    (lookupFile files (executionStatePath mgr executionId) = none →
        loadExecutionState mgr files executionId = none) ∧
    (∀ blob, lookupFile files (executionStatePath mgr executionId) = some blob →
        (∀ e, stateDecrypt mgr blob = Except.error e →
            loadExecutionState mgr files executionId = none) ∧
        (∀ state, stateDecrypt mgr blob = Except.ok state →
            loadExecutionState mgr files executionId = some state)) := by
  refine ⟨fun h => ?_, fun blob hb => ⟨fun e he => ?_, fun st hs => ?_⟩⟩
  · simp [loadExecutionState, h]
  · simp [loadExecutionState, hb, he]
  · simp [loadExecutionState, hb, hs]

/-- Witness for the amended C3: absent file yields `null`, and a
well-encrypted file yields the stored state. -/
theorem c3_load_null_witness :
    loadExecutionState mgrW [] "exec9" = none ∧
      loadExecutionState mgrW
          [(executionStatePath mgrW "exec1",
            (stateEncrypt mgrW [4] 5 (JValue.jobj [("step", JValue.jnum 1)])).1)]
          "exec1" = some (JValue.jobj [("step", JValue.jnum 1)]) := by
  refine ⟨(c3_load_null_on_absent_or_corrupt mgrW [] "exec9").1 rfl, ?_⟩
  exact ((c3_load_null_on_absent_or_corrupt mgrW
      [(executionStatePath mgrW "exec1",
        (stateEncrypt mgrW [4] 5 (JValue.jobj [("step", JValue.jnum 1)])).1)] "exec1").2
    ((stateEncrypt mgrW [4] 5 (JValue.jobj [("step", JValue.jnum 1)])).1) rfl).2
    (JValue.jobj [("step", JValue.jnum 1)])
    (by
      rw [(c2_roundtrip_characterization mgrW [4] 5 (JValue.jobj [("step", JValue.jnum 1)])
        (by decide)).2 (by decide)])


/-! ## SecureFlowEngine (core workflow engine)

The engine is an `EventEmitter` with in-memory `workflows` / `executions`
maps. The embedding passes the engine state explicitly; `emit` appends to an
event log; `Date.now()` reads the `clock` field (advanced only by the
`setTimeout` backoff waits, the one real delay in the engine);
`crypto.randomBytes` draws are modelled by the `rng` counter. -/

/-- The engine's lifecycle events, with the identifying payload fields. -/
inductive Event where
  | workflowRegistered (workflowId : String)
  | executionStarted (executionId workflowId : String)
  | executionCompleted (executionId workflowId : String)
  | executionFailed (executionId workflowId : String)
  | executionStopped (executionId : String)
  | executionReplaying (executionId : String) (fromStep : Nat)
  | stepStarted (executionId : String) (stepIndex : Nat)
  | stepCompleted (executionId : String) (stepIndex : Nat)
  | stepFailed (executionId : String) (stepIndex : Nat)
deriving DecidableEq, Repr

/-- The engine's encryption envelope `{iv, encrypted, authTag}` (no AAD, no
compression — the engine's own cipher differs from the state layer's). -/
structure EngBlob where
  iv : List Nat
  encrypted : String
  authTag : GcmTag
deriving DecidableEq, Repr

/-- The engine configuration assembled by the constructor. -/
structure EngineConfig where
  encryptionKey : List Nat
  maxRetries : Nat
  stepTimeout : Nat
  enableAuditLog : Bool
  privacyMode : Bool
deriving Repr

/-- A per-attempt step record (`stepExecution`); `name` and `type` hold
whatever the step definition carries (`none` = `undefined`). -/
structure StepExecution where
  index : Nat
  name : Option JValue
  stype : Option JValue
  startTime : Nat
  status : String
  endTime : Option Nat := none
  result : Option EngBlob := none
  error : Option String := none

/-- An execution record as created by `executeWorkflow`. -/
structure Execution where
  id : String
  workflowId : String
  status : String
  currentStep : Nat
  startTime : Nat
  triggerData : EngBlob
  context : EngBlob
  steps : List (Option StepExecution)
  retryCount : Nat
  options : JValue
  endTime : Option Nat := none
  error : Option String := none

/-- A stored workflow (`encryptedWorkflow`): the plaintext spread of the
definition fields is unused by every modelled operation and omitted. -/
structure StoredWorkflow where
  id : String
  definition : EngBlob
  registeredAt : Nat

/-- The engine state. -/
structure Engine where
  workflows : List (String × StoredWorkflow)
  executions : List (String × Execution)
  config : EngineConfig
  events : List Event
  clock : Nat
  rng : Nat

/-- Association-list read (`Map.get`). -/
def assocGet {α : Type} : List (String × α) → String → Option α
  | [], _ => none
  | (k, v) :: t, key => if k = key then some v else assocGet t key

/-- Association-list write (`Map.set`: update in place or append). -/
def assocSet {α : Type} : List (String × α) → String → α → List (String × α)
  | [], key, v => [(key, v)]
  | (k, w) :: t, key, v => if k = key then (key, v) :: t else (k, w) :: assocSet t key v

def getExec (eng : Engine) (executionId : String) : Option Execution :=
  assocGet eng.executions executionId

def setExec (eng : Engine) (executionId : String) (ex : Execution) : Engine :=
  { eng with executions := assocSet eng.executions executionId ex }

/-- In-place mutation of the execution object held by the map. -/
def updateExec (eng : Engine) (executionId : String) (f : Execution → Execution) : Engine :=
  match getExec eng executionId with
  | none => eng
  | some ex => setExec eng executionId (f ex)

/-- `this.emit(event)`: listeners are notified synchronously; the model
appends to the event log. -/
def emit (eng : Engine) (e : Event) : Engine := { eng with events := eng.events ++ [e] }

/-- The engine's `encrypt(data)`: fresh IV from the rng counter, AES-256-GCM
over `JSON.stringify(data)` with no AAD. -/
def engEncrypt (eng : Engine) (data : JValue) : EngBlob × Engine :=
  let iv : List Nat := [eng.rng]
  let ec := gcmEncrypt eng.config.encryptionKey iv "" (jsonStringify data)
  ({ iv := iv, encrypted := ec.1, authTag := ec.2 }, { eng with rng := eng.rng + 1 })

/-- The engine's `decrypt(encryptedData)`: no try/catch — tag-verification or
JSON failures propagate to the caller. -/
def engDecrypt (cfg : EngineConfig) (blob : EngBlob) : Except String JValue :=
  match gcmDecrypt cfg.encryptionKey blob.iv "" blob.encrypted blob.authTag with
  | none => Except.error "Unsupported state or unable to authenticate data"
  | some s =>
    match parseJson s with
    | none => Except.error "Unexpected token in JSON"
    | some v => Except.ok v

theorem engDecrypt_engEncrypt (eng : Engine) (data : JValue) :
    engDecrypt eng.config (engEncrypt eng data).1 = Except.ok data := by
  simp [engEncrypt, engDecrypt, gcmEncrypt, gcmDecrypt, parseJson_stringify]

/-! ### registerWorkflow -/

/-- A step spec as supplied by the caller at registration. `handlerPresent`
records whether a handler function was attached (functions cannot survive the
JSON serialization of the definition). -/
structure StepInput where
  name : Option String := none
  stype : Option String := none
  retryable : Option Bool := none
  handlerPresent : Bool := false

/-- A workflow definition as supplied to `registerWorkflow`
(`none` = absent). -/
structure WorkflowDefInput where
  id : Option String := none
  name : Option String := none
  trigger : Option JValue := none
  steps : Option (List StepInput) := none

/-- `JSON.stringify` view of a step spec: absent fields are omitted and a
function-valued `handler` is dropped by JSON serialization. -/
def stepInputToJson (s : StepInput) : JValue :=
  JValue.jobj
    ((match s.name with | some n => [("name", JValue.jstr n)] | none => []) ++
     (match s.stype with | some t => [("type", JValue.jstr t)] | none => []) ++
     (match s.retryable with | some b => [("retryable", JValue.jbool b)] | none => []))

/-- `JSON.stringify` view of a workflow definition. -/
def defInputToJson (d : WorkflowDefInput) : JValue :=
  JValue.jobj
    ((match d.id with | some i => [("id", JValue.jstr i)] | none => []) ++
     (match d.name with | some n => [("name", JValue.jstr n)] | none => []) ++
     (match d.trigger with | some t => [("trigger", t)] | none => []) ++
     (match d.steps with
      | some ss => [("steps", JValue.jarr (ss.map stepInputToJson))]
      | none => []))

/-- `generateWorkflowId(name)`: sanitize to `[a-zA-Z0-9]` with underscores,
lower-case, suffix with `Date.now()`. -/
def generateWorkflowId (name : String) (now : Nat) : String :=
  "wf_" ++ ⟨name.data.map (fun c => if c.isAlphanum then c.toLower else '_')⟩
    ++ "_" ++ toString now

/-- The fallback id generation dereferences `workflowDef.name`, so an absent
name throws a TypeError before validation runs. -/
def genIdFromName (d : WorkflowDefInput) (now : Nat) : Except String String :=
  match d.name with
  | none => Except.error "TypeError: Cannot read properties of undefined (reading replace)"
  | some n => Except.ok (generateWorkflowId n now)

/-- `workflowDef.id || this.generateWorkflowId(workflowDef.name)` — a falsy
(absent or empty) id falls back to generation. -/
def workflowIdOf (d : WorkflowDefInput) (now : Nat) : Except String String :=
  match d.id with
  | some i => if i = "" then genIdFromName d now else Except.ok i
  | none => genIdFromName d now

/-- JavaScript falsiness of an optional string (absent or empty). -/
def nameFalsy : Option String → Bool
  | none => true
  | some s => s == ""

/-- `registerWorkflow(workflowDef)`: compute the id, validate that `name`,
`trigger` and `steps` are truthy (an array — even an empty one — is truthy),
store the encrypted definition, emit `workflow:registered`. -/
def registerWorkflow (eng : Engine) (d : WorkflowDefInput) : Engine × Except String String :=
  match workflowIdOf d eng.clock with
  | Except.error e => (eng, Except.error e)
  | Except.ok workflowId =>
    if nameFalsy d.name || !(jsTruthy d.trigger) || d.steps.isNone then
      (eng, Except.error "Invalid workflow definition: name, trigger, and steps are required")
    else
      let p := engEncrypt eng (defInputToJson d)
      let sw : StoredWorkflow :=
        { id := workflowId, definition := p.1, registeredAt := (p.2).clock }
      let eng2 := { p.2 with workflows := assocSet p.2.workflows workflowId sw }
      (emit eng2 (Event.workflowRegistered workflowId), Except.ok workflowId)

/-! ### Step dispatch, timeout and retry -/

/-- The built-in step implementations (`executeScanStep` … `executeAuditStep`)
and their fixed results. -/
def builtinStepResult : String → Option JValue
  | "scan" => some (JValue.jobj
      [("scanned", JValue.jbool true), ("vulnerabilities", JValue.jarr [])])
  | "fix" => some (JValue.jobj [("fixed", JValue.jbool true), ("patches", JValue.jarr [])])
  | "test" => some (JValue.jobj [("tested", JValue.jbool true), ("results", JValue.jstr "passed")])
  | "deploy" => some (JValue.jobj
      [("deployed", JValue.jbool true), ("version", JValue.jstr "v1.0.0")])
  | "notify" => some (JValue.jobj
      [("notified", JValue.jbool true), ("recipients", JValue.jarr [])])
  | "audit" => some (JValue.jobj
      [("audited", JValue.jbool true), ("compliance", JValue.jstr "passed")])
  | _ => none

/-- Template rendering of a step type value in the unknown-type error. -/
def displayType : Option JValue → String
  | none => "undefined"
  | some JValue.jnull => "null"
  | some (JValue.jbool true) => "true"
  | some (JValue.jbool false) => "false"
  | some (JValue.jnum n) => toString n
  | some (JValue.jstr str) => str
  | some (JValue.jarr _) => ""
  | some (JValue.jobj _) => "[object Object]"

/-- `executeStepFunction(executionId, stepDef)`: decrypt context and trigger
data, then dispatch on `stepDef.type`. A `custom` step requires a handler
function, which a step definition read back from the encrypted JSON can
never carry, so `custom` always rejects. -/
def executeStepFunction (cfg : EngineConfig) (ex : Execution) (stepJson : JValue) :
    Except String JValue :=
  match engDecrypt cfg ex.context with
  | Except.error e => Except.error e
  | Except.ok _context =>
    match engDecrypt cfg ex.triggerData with
    | Except.error e => Except.error e
    | Except.ok _triggerData =>
      match getProp stepJson "type" with
      | some (JValue.jstr t) =>
        (match builtinStepResult t with
         | some r => Except.ok r
         | none =>
           if t = "custom" then Except.error "Custom step requires handler function"
           else Except.error ("Unknown step type: " ++ t))
      | other => Except.error ("Unknown step type: " ++ displayType other)

/-- The promise race inside `executeStepWithTimeout`: the step function's
settlement (at time `settle` after the attempt starts; `none` = never)
against the `stepTimeout` timer. Returns the attempt's outcome and its
duration. The loser is not cancelled — a late settlement simply has no
observer. -/
def raceTimeout (timeoutMs : Nat) (settle : Option Nat) (outcome : Except String JValue) :
    Except String JValue × Nat :=
  match settle with
  | some t =>
    if t ≤ timeoutMs then (outcome, t)
    else (Except.error ("Step timeout after " ++ toString timeoutMs ++ "ms"), timeoutMs)
  | none => (Except.error ("Step timeout after " ++ toString timeoutMs ++ "ms"), timeoutMs)

/-- `executeStepWithTimeout(executionId, stepDef)` with the settlement time of
the step function's promise made explicit. Step definitions read back from
the encrypted JSON settle immediately (built-in step functions resolve at
once; `custom` and unknown types reject at once), so engine call sites pass
`settle = some 0`. -/
def executeStepWithTimeout (cfg : EngineConfig) (ex : Execution) (stepJson : JValue)
    (settle : Option Nat) : Except String JValue × Nat :=
  raceTimeout cfg.stepTimeout settle (executeStepFunction cfg ex stepJson)

/-- JS array index assignment `steps[stepIndex] = rec` (holes become
`undefined`). -/
def listSet : List (Option StepExecution) → Nat → StepExecution → List (Option StepExecution)
  | [], 0, r => [some r]
  | [], n + 1, r => none :: listSet [] n r
  | _ :: t, 0, r => some r :: t
  | h :: t, n + 1, r => h :: listSet t n r

/-- Field mutation of the record object already stored at an index. -/
def listModify : List (Option StepExecution) → Nat → (StepExecution → StepExecution) →
    List (Option StepExecution)
  | [], _, _ => []
  | h :: t, 0, f => h.map f :: t
  | h :: t, n + 1, f => h :: listModify t n f

/-- `stepDef.retryable !== false`. -/
def retryableNotFalse (stepJson : JValue) : Bool :=
  match getProp stepJson "retryable" with
  | some (JValue.jbool false) => false
  | _ => true

/-- `executeStep(executionId, stepDef, stepIndex)`, fuelled for the
retry-via-recursion (the wrapper supplies fuel `maxRetries + 1`, which the
retry guard `retryCount < maxRetries` can never exhaust): create the running
step record at the index, emit `step:started`, race the step function against
the timeout; on success store the encrypted result and emit `step:completed`;
on failure record the error and either retry — increment the execution-wide
`retryCount`, wait `1000 × retryCount` ms, re-invoke at the same index — or
emit `step:failed` and rethrow. -/
def executeStepGo : Nat → Engine → String → JValue → Nat → Engine × Except String Unit
  | 0, eng, _, _, _ => (eng, Except.error "model: retry fuel exhausted")
  | fuel + 1, eng, executionId, stepJson, stepIndex =>
    match getExec eng executionId with
    | none => (eng, Except.error "model: execution missing")
    | some ex =>
      let rec0 : StepExecution :=
        { index := stepIndex, name := getProp stepJson "name",
          stype := getProp stepJson "type", startTime := eng.clock, status := "running" }
      let eng1 := setExec eng executionId { ex with steps := listSet ex.steps stepIndex rec0 }
      let eng2 := emit eng1 (Event.stepStarted executionId stepIndex)
      match executeStepWithTimeout eng.config ex stepJson (some 0) with
      | (Except.ok r, elapsed) =>
        let eng3 := { eng2 with clock := eng2.clock + elapsed }
        let p := engEncrypt eng3 r
        let eng5 := updateExec p.2 executionId (fun e2 =>
          { e2 with steps := listModify e2.steps stepIndex (fun sr =>
              { sr with status := "completed", endTime := some (p.2).clock,
                        result := some p.1 }) })
        (emit eng5 (Event.stepCompleted executionId stepIndex), Except.ok ())
      | (Except.error e, elapsed) =>
        let eng3 := { eng2 with clock := eng2.clock + elapsed }
        let eng4 := updateExec eng3 executionId (fun e2 =>
          { e2 with steps := listModify e2.steps stepIndex (fun sr =>
              { sr with status := "failed", endTime := some eng3.clock,
                        error := some e }) })
        if ex.retryCount < eng.config.maxRetries && retryableNotFalse stepJson then
          let eng5 := updateExec eng4 executionId (fun e2 =>
            { e2 with retryCount := e2.retryCount + 1 })
          let eng6 := { eng5 with clock := eng5.clock + 1000 * (ex.retryCount + 1) }
          executeStepGo fuel eng6 executionId stepJson stepIndex
        else
          (emit eng4 (Event.stepFailed executionId stepIndex), Except.error e)

/-- `executeStep` entry point. -/
def executeStep (eng : Engine) (executionId : String) (stepJson : JValue) (stepIndex : Nat) :
    Engine × Except String Unit :=
  executeStepGo (eng.config.maxRetries + 1) eng executionId stepJson stepIndex

/-! ### executeWorkflow, stop, replay -/

/-- `runWorkflowSteps`: dispatch the steps in array order, setting
`execution.currentStep` before each, stopping at the first unrecovered
failure. -/
def runStepsMain : Engine → String → List JValue → Nat → Engine × Except String Unit
  | eng, _, [], _ => (eng, Except.ok ())
  | eng, executionId, step :: rest, i =>
    let eng1 := updateExec eng executionId (fun ex => { ex with currentStep := i })
    match executeStep eng1 executionId step i with
    | (eng2, Except.ok _) => runStepsMain eng2 executionId rest (i + 1)
    | (eng2, Except.error e) => (eng2, Except.error e)

/-- The tail of `executeWorkflow`: unconditionally overwrite the status with
`completed` (emitting `execution:completed` and returning the id) or `failed`
(recording the error, emitting `execution:failed` and rethrowing). -/
def finishExecution (eng : Engine) (executionId workflowId : String)
    (r : Except String Unit) : Engine × Except String String :=
  match r with
  | Except.ok _ =>
    let eng1 := updateExec eng executionId (fun ex =>
      { ex with status := "completed", endTime := some eng.clock })
    (emit eng1 (Event.executionCompleted executionId workflowId), Except.ok executionId)
  | Except.error e =>
    let eng1 := updateExec eng executionId (fun ex =>
      { ex with status := "failed", endTime := some eng.clock, error := some e })
    (emit eng1 (Event.executionFailed executionId workflowId), Except.error e)

/-- `exec_` + hex of `crypto.randomBytes(8)`, modelled from the rng counter. -/
def generateExecutionId (rng : Nat) : String := "exec_" ++ toString rng

/-- `workflowDef.steps` of a decrypted definition. Registration guarantees a
present `steps` field serialized as a JSON array; other shapes (unreachable
through `registerWorkflow`) are modelled as the empty list. -/
def stepsOf (workflowDef : JValue) : List JValue :=
  match getProp workflowDef "steps" with
  | some (JValue.jarr xs) => xs
  | _ => []

/-- `executeWorkflow(workflowId, triggerData, options)`: unknown id throws
`Workflow not found` before any record is created; otherwise decrypt the
definition, create the running execution (encrypting trigger data and the
empty context), emit `execution:started`, run the steps, finish. -/
def executeWorkflow (eng : Engine) (workflowId : String) (triggerData : JValue)
    (options : JValue) : Engine × Except String String :=
  match assocGet eng.workflows workflowId with
  | none => (eng, Except.error ("Workflow not found: " ++ workflowId))
  | some workflow =>
    match engDecrypt eng.config workflow.definition with
    | Except.error e => (eng, Except.error e)
    | Except.ok workflowDef =>
      let executionId := generateExecutionId eng.rng
      let eng1 := { eng with rng := eng.rng + 1 }
      let p1 := engEncrypt eng1 triggerData
      let p2 := engEncrypt p1.2 (JValue.jobj [])
      let ex : Execution :=
        { id := executionId, workflowId := workflowId, status := "running",
          currentStep := 0, startTime := (p2.2).clock, triggerData := p1.1,
          context := p2.1, steps := [], retryCount := 0, options := options }
      let eng4 := setExec p2.2 executionId ex
      let eng5 := emit eng4 (Event.executionStarted executionId workflowId)
      let lr := runStepsMain eng5 executionId (stepsOf workflowDef) 0
      finishExecution lr.1 executionId workflowId lr.2

/-- `listExecutions(workflowId?)`. -/
def listExecutions (eng : Engine) (workflowId : Option String) : List Execution :=
  match workflowId with
  | some wid => (eng.executions.map Prod.snd).filter (fun ex => ex.workflowId == wid)
  | none => eng.executions.map Prod.snd

/-- `stopExecution(executionId)`: advisory only — set status `stopped` and
`endTime`, emit `execution:stopped`; unknown id throws. -/
def stopExecution (eng : Engine) (executionId : String) : Engine × Except String Unit :=
  match getExec eng executionId with
  | none => (eng, Except.error ("Execution not found: " ++ executionId))
  | some _ =>
    let eng1 := updateExec eng executionId (fun ex =>
      { ex with status := "stopped", endTime := some eng.clock })
    (emit eng1 (Event.executionStopped executionId), Except.ok ())

/-- The replay loop over `workflowDef.steps.slice(fromStep)` (it does not
touch `currentStep`). -/
def runStepsReplay : Engine → String → List JValue → Nat → Engine × Except String Unit
  | eng, _, [], _ => (eng, Except.ok ())
  | eng, executionId, step :: rest, i =>
    match executeStep eng executionId step i with
    | (eng2, Except.ok _) => runStepsReplay eng2 executionId rest (i + 1)
    | (eng2, Except.error e) => (eng2, Except.error e)

/-- `replayExecution(executionId, fromStep)`: reset status/`currentStep`/
`retryCount`, emit `execution:replaying`, re-execute the steps from
`fromStep` to the end at their original indices; finish with `completed`
(and `endTime`) or `failed` (recording the error, no `endTime`). -/
def replayExecution (eng : Engine) (executionId : String) (fromStep : Nat) :
    Engine × Except String Unit :=
  match getExec eng executionId with
  | none => (eng, Except.error ("Execution not found: " ++ executionId))
  | some ex =>
    match assocGet eng.workflows ex.workflowId with
    | none => (eng, Except.error "TypeError: Cannot read properties of undefined (reading definition)")
    | some workflow =>
      match engDecrypt eng.config workflow.definition with
      | Except.error e => (eng, Except.error e)
      | Except.ok workflowDef =>
        let eng1 := updateExec eng executionId (fun e2 =>
          { e2 with status := "running", currentStep := fromStep, retryCount := 0 })
        let eng2 := emit eng1 (Event.executionReplaying executionId fromStep)
        let lr := runStepsReplay eng2 executionId
          (List.drop fromStep (stepsOf workflowDef)) fromStep
        match lr.2 with
        | Except.ok _ =>
          (updateExec lr.1 executionId (fun e2 =>
            { e2 with status := "completed", endTime := some lr.1.clock }), Except.ok ())
        | Except.error e =>
          (updateExec lr.1 executionId (fun e2 =>
            { e2 with status := "failed", error := some e }), Except.error e)

/-- Number of `step:started` events recorded for one step of one execution —
the observable count of attempts. -/
def countStepStarted (evs : List Event) (executionId : String) (stepIndex : Nat) : Nat :=
  (evs.filter (fun e =>
    match e with
    | Event.stepStarted i j => i == executionId && j == stepIndex
    | _ => false)).length

/-- Total linear-backoff wait accumulated by retries that take the retry
counter from `rc` up to `maxRetries`, at 1000 ms per unit. -/
def backoffFrom (rc : Nat) : Nat → Nat
  | 0 => 0
  | k + 1 => 1000 * (rc + 1) + backoffFrom (rc + 1) k


/-! ### State-manipulation lemmas -/

theorem assocGet_assocSet_self {α : Type} (l : List (String × α)) (k : String) (v : α) :
    assocGet (assocSet l k v) k = some v := by
  induction l with
  | nil => simp [assocSet, assocGet]
  | cons p t ih =>
    obtain ⟨k2, w⟩ := p
    by_cases h : k2 = k
    · simp [assocSet, assocGet, h]
    · simp [assocSet, assocGet, h, ih]

theorem assocGet_assocSet_ne {α : Type} (l : List (String × α)) (k k2 : String) (v : α)
    (h : k2 ≠ k) : assocGet (assocSet l k v) k2 = assocGet l k2 := by
  have h2 : k ≠ k2 := Ne.symm h
  induction l with
  | nil => simp [assocSet, assocGet, h2]
  | cons p t ih =>
    obtain ⟨k3, w⟩ := p
    by_cases h3 : k3 = k
    · subst h3
      simp [assocSet, assocGet, h2]
    · simp only [assocSet, if_neg h3, assocGet]
      by_cases h4 : k3 = k2
      · simp [h4]
      · simp [h4, ih]

theorem getExec_setExec_self (eng : Engine) (executionId : String) (ex : Execution) :
    getExec (setExec eng executionId ex) executionId = some ex :=
  assocGet_assocSet_self _ _ _

theorem getExec_setExec_ne (eng : Engine) (executionId id2 : String) (ex : Execution)
    (h : id2 ≠ executionId) :
    getExec (setExec eng executionId ex) id2 = getExec eng id2 :=
  assocGet_assocSet_ne _ _ _ _ h

theorem getExec_emit (eng : Engine) (e : Event) (executionId : String) :
    getExec (emit eng e) executionId = getExec eng executionId := rfl

theorem updateExec_eq (eng : Engine) (executionId : String) (f : Execution → Execution)
    (ex : Execution) (hex : getExec eng executionId = some ex) :
    updateExec eng executionId f = setExec eng executionId (f ex) := by
  unfold updateExec
  rw [hex]

theorem getExec_updateExec_ne (eng : Engine) (executionId id2 : String)
    (f : Execution → Execution) (h : id2 ≠ executionId) :
    getExec (updateExec eng executionId f) id2 = getExec eng id2 := by
  unfold updateExec
  cases hex : getExec eng executionId with
  | none => rfl
  | some ex => exact getExec_setExec_ne _ _ _ _ h

theorem getExec_updateExec_self (eng : Engine) (executionId : String)
    (f : Execution → Execution) (ex : Execution) (hex : getExec eng executionId = some ex) :
    getExec (updateExec eng executionId f) executionId = some (f ex) := by
  rw [updateExec_eq eng executionId f ex hex, getExec_setExec_self]

theorem listSet_getD_ne :
    ∀ (l : List (Option StepExecution)) (i j : Nat) (r : StepExecution), j ≠ i →
      ((listSet l i r)[j]?).getD none = (l[j]?).getD none := by
  intro l
  induction l with
  | nil =>
    intro i
    induction i with
    | zero =>
      intro j r h
      cases j with
      | zero => exact absurd rfl h
      | succ k => simp [listSet]
    | succ n ih =>
      intro j r h
      cases j with
      | zero => simp [listSet]
      | succ k => simp only [listSet, List.getElem?_cons_succ]; exact ih k r (fun e => h (by rw [e]))
  | cons hd t ih =>
    intro i j r h
    cases i with
    | zero =>
      cases j with
      | zero => exact absurd rfl h
      | succ k => simp [listSet]
    | succ n =>
      cases j with
      | zero => simp [listSet]
      | succ k => simp only [listSet, List.getElem?_cons_succ]; exact ih n k r (fun e => h (by rw [e]))

theorem listModify_getD_ne :
    ∀ (l : List (Option StepExecution)) (i j : Nat) (f : StepExecution → StepExecution),
      j ≠ i → ((listModify l i f)[j]?).getD none = (l[j]?).getD none := by
  intro l
  induction l with
  | nil => intro i j f _; simp [listModify]
  | cons hd t ih =>
    intro i j f h
    cases i with
    | zero =>
      cases j with
      | zero => exact absurd rfl h
      | succ k => simp [listModify]
    | succ n =>
      cases j with
      | zero => simp [listModify]
      | succ k => simp only [listModify, List.getElem?_cons_succ]; exact ih n k f (fun e => h (by rw [e]))

theorem listSet_getD_self :
    ∀ (l : List (Option StepExecution)) (i : Nat) (r : StepExecution),
      ((listSet l i r)[i]?).getD none = some r := by
  intro l
  induction l with
  | nil =>
    intro i
    induction i with
    | zero => intro r; simp [listSet]
    | succ n ih => intro r; simp only [listSet, List.getElem?_cons_succ]; exact ih r
  | cons hd t ih =>
    intro i r
    cases i with
    | zero => simp [listSet]
    | succ n => simp only [listSet, List.getElem?_cons_succ]; exact ih n r

theorem listModify_getD_self :
    ∀ (l : List (Option StepExecution)) (i : Nat) (f : StepExecution → StepExecution),
      ((listModify l i f)[i]?).getD none = ((l[i]?).getD none).map f := by
  intro l
  induction l with
  | nil => intro i f; simp [listModify]
  | cons hd t ih =>
    intro i f
    cases i with
    | zero => simp [listModify]
    | succ n => simp only [listModify, List.getElem?_cons_succ]; exact ih n f

/-- The step record stored at an index, for an existing execution
(`some none` = a hole, the JS `undefined`). -/
def stepAt (eng : Engine) (executionId : String) (j : Nat) : Option (Option StepExecution) :=
  (getExec eng executionId).map (fun ex => ex.steps.getD j none)

/-- Everything in an execution record except `steps` and `retryCount` — the
fields `executeStep` can never write. -/
def sansStepsRetry (ex : Execution) :
    String × String × String × Nat × Nat × EngBlob × EngBlob × JValue ×
      Option Nat × Option String :=
  (ex.id, ex.workflowId, ex.status, ex.currentStep, ex.startTime, ex.triggerData,
    ex.context, ex.options, ex.endTime, ex.error)

/-- Frame of `executeStep`: whatever the outcome (including every retry),
the step dispatcher never touches the workflow table, the configuration,
other executions, the non-`steps`/`retryCount` fields of its own execution,
or step records at other indices. -/
theorem executeStepGo_frame (stepJson : JValue) (stepIndex : Nat) :
    ∀ (fuel : Nat) (eng : Engine) (executionId : String),
      (executeStepGo fuel eng executionId stepJson stepIndex).1.workflows = eng.workflows ∧
      (executeStepGo fuel eng executionId stepJson stepIndex).1.config = eng.config ∧
      (∀ id2, id2 ≠ executionId →
        getExec (executeStepGo fuel eng executionId stepJson stepIndex).1 id2
          = getExec eng id2) ∧
      ((getExec (executeStepGo fuel eng executionId stepJson stepIndex).1 executionId).map
          sansStepsRetry
        = (getExec eng executionId).map sansStepsRetry) ∧
      (∀ j, j ≠ stepIndex →
        stepAt (executeStepGo fuel eng executionId stepJson stepIndex).1 executionId j
          = stepAt eng executionId j) := by
  intro fuel
  induction fuel with
  | zero =>
    intro eng executionId
    exact ⟨rfl, rfl, fun _ _ => rfl, rfl, fun _ _ => rfl⟩
  | succ f ih =>
    intro eng executionId
    cases hex : getExec eng executionId with
    | none =>
      simp [executeStepGo, hex]
    | some ex =>
      have hex2 : assocGet eng.executions executionId = some ex := hex
      simp only [executeStepGo, hex]
      rcases hrace : executeStepWithTimeout eng.config ex stepJson (some 0) with ⟨out, elapsed⟩
      cases out with
      | ok r =>
        simp only [hrace]
        refine ⟨?_, ?_, fun id2 h2 => ?_, ?_, fun j hj => ?_⟩
        · simp [updateExec, setExec, emit, engEncrypt, getExec, assocGet_assocSet_self]
        · simp [updateExec, setExec, emit, engEncrypt, getExec, assocGet_assocSet_self]
        · simp [updateExec, setExec, emit, engEncrypt, getExec, assocGet_assocSet_self,
            assocGet_assocSet_ne _ _ _ _ h2]
        · simp [updateExec, setExec, emit, engEncrypt, getExec, assocGet_assocSet_self,
            sansStepsRetry, hex]
        · simp [updateExec, setExec, emit, engEncrypt, getExec, stepAt,
            assocGet_assocSet_self, hex2, listModify_getD_ne _ _ _ _ hj,
            listSet_getD_ne _ _ _ _ hj]
      | error e =>
        simp only [hrace]
        split
        · refine ⟨((ih _ executionId).1).trans ?_, ((ih _ executionId).2.1).trans ?_,
            fun id2 h2 => ((ih _ executionId).2.2.1 id2 h2).trans ?_,
            ((ih _ executionId).2.2.2.1).trans ?_,
            fun j hj => ((ih _ executionId).2.2.2.2 j hj).trans ?_⟩
          · simp [updateExec, setExec, emit, getExec, assocGet_assocSet_self]
          · simp [updateExec, setExec, emit, getExec, assocGet_assocSet_self]
          · simp [updateExec, setExec, emit, getExec, assocGet_assocSet_self,
              assocGet_assocSet_ne _ _ _ _ h2]
          · simp [updateExec, setExec, emit, getExec, assocGet_assocSet_self,
              sansStepsRetry, hex]
          · simp [updateExec, setExec, emit, getExec, stepAt, assocGet_assocSet_self, hex2,
              listModify_getD_ne _ _ _ _ hj, listSet_getD_ne _ _ _ _ hj]
        · refine ⟨?_, ?_, fun id2 h2 => ?_, ?_, fun j hj => ?_⟩
          · simp [updateExec, setExec, emit, getExec, assocGet_assocSet_self]
          · simp [updateExec, setExec, emit, getExec, assocGet_assocSet_self]
          · simp [updateExec, setExec, emit, getExec, assocGet_assocSet_self,
              assocGet_assocSet_ne _ _ _ _ h2]
          · simp [updateExec, setExec, emit, getExec, assocGet_assocSet_self,
              sansStepsRetry, hex]
          · simp [updateExec, setExec, emit, getExec, stepAt, assocGet_assocSet_self, hex2,
              listModify_getD_ne _ _ _ _ hj, listSet_getD_ne _ _ _ _ hj]


theorem executeStepFunction_congr (cfg : EngineConfig) (ex1 ex2 : Execution) (stepJson : JValue)
    (h1 : ex2.context = ex1.context) (h2 : ex2.triggerData = ex1.triggerData) :
    executeStepFunction cfg ex2 stepJson = executeStepFunction cfg ex1 stepJson := by
  unfold executeStepFunction
  rw [h1, h2]

/-- A successful attempt: one `step:started`/`step:completed` pair, a
completed record stored at the index, no clock movement, one rng draw for the
result encryption, `retryCount` untouched. -/
theorem executeStepGo_success (eng : Engine) (executionId : String) (stepJson : JValue)
    (stepIndex : Nat) (fuel : Nat) (ex : Execution) (r : JValue)
    (hex : getExec eng executionId = some ex)
    (hok : executeStepFunction eng.config ex stepJson = Except.ok r) :
    (executeStepGo (fuel + 1) eng executionId stepJson stepIndex).2 = Except.ok () ∧
    (executeStepGo (fuel + 1) eng executionId stepJson stepIndex).1.events
      = eng.events ++ [Event.stepStarted executionId stepIndex,
          Event.stepCompleted executionId stepIndex] ∧
    (executeStepGo (fuel + 1) eng executionId stepJson stepIndex).1.clock = eng.clock ∧
    (executeStepGo (fuel + 1) eng executionId stepJson stepIndex).1.rng = eng.rng + 1 ∧
    ((getExec (executeStepGo (fuel + 1) eng executionId stepJson stepIndex).1 executionId).map
        Execution.retryCount = some ex.retryCount) ∧
    ((stepAt (executeStepGo (fuel + 1) eng executionId stepJson stepIndex).1
          executionId stepIndex).map
        (Option.map (fun rec => (rec.status, rec.index)))
      = some (some ("completed", stepIndex))) := by
  have hex2 : assocGet eng.executions executionId = some ex := hex
  have hrace : executeStepWithTimeout eng.config ex stepJson (some 0)
      = (Except.ok r, 0) := by
    simp [executeStepWithTimeout, raceTimeout, hok]
  refine ⟨?_, ?_, ?_, ?_, ?_, ?_⟩
  · simp [executeStepGo, hex, hrace]
  · simp only [executeStepGo, hex, hrace]
    simp [updateExec, setExec, emit, engEncrypt, getExec, assocGet_assocSet_self]
  · simp only [executeStepGo, hex, hrace]
    simp [updateExec, setExec, emit, engEncrypt, getExec, assocGet_assocSet_self]
  · simp only [executeStepGo, hex, hrace]
    simp [updateExec, setExec, emit, engEncrypt, getExec, assocGet_assocSet_self]
  · simp only [executeStepGo, hex, hrace]
    simp [updateExec, setExec, emit, engEncrypt, getExec, assocGet_assocSet_self]
  · simp only [executeStepGo, hex, hrace]
    simp [updateExec, setExec, emit, engEncrypt, getExec, stepAt,
      assocGet_assocSet_self, listModify_getD_self, listSet_getD_self]

/-- The started/completed event pairs appended by a successful run of `n`
steps beginning at index `i`. -/
def runEvents (executionId : String) : Nat → Nat → List Event
  | _, 0 => []
  | i, k + 1 =>
    Event.stepStarted executionId i :: Event.stepCompleted executionId i ::
      runEvents executionId (i + 1) k

/-- Frame of the replay loop: step records below the start index are never
touched, and neither are the workflow table, the configuration or the
non-`steps`/`retryCount` fields. -/
theorem runStepsReplay_frame (executionId : String) :
    ∀ (steps : List JValue) (eng : Engine) (i : Nat),
      (runStepsReplay eng executionId steps i).1.workflows = eng.workflows ∧
      (runStepsReplay eng executionId steps i).1.config = eng.config ∧
      ((getExec (runStepsReplay eng executionId steps i).1 executionId).map sansStepsRetry
        = (getExec eng executionId).map sansStepsRetry) ∧
      (∀ j, j < i →
        stepAt (runStepsReplay eng executionId steps i).1 executionId j
          = stepAt eng executionId j) := by
  intro steps
  induction steps with
  | nil => intro eng i; exact ⟨rfl, rfl, rfl, fun _ _ => rfl⟩
  | cons step rest ih =>
    intro eng i
    have hframe := executeStepGo_frame step i (eng.config.maxRetries + 1) eng executionId
    rcases hrun : executeStep eng executionId step i with ⟨eng2, res⟩
    have hw : eng2.workflows = eng.workflows := by
      have := hframe.1
      rw [show executeStepGo (eng.config.maxRetries + 1) eng executionId step i
          = (eng2, res) from hrun] at this
      exact this
    have hc : eng2.config = eng.config := by
      have := hframe.2.1
      rw [show executeStepGo (eng.config.maxRetries + 1) eng executionId step i
          = (eng2, res) from hrun] at this
      exact this
    have hs : (getExec eng2 executionId).map sansStepsRetry
        = (getExec eng executionId).map sansStepsRetry := by
      have := hframe.2.2.2.1
      rw [show executeStepGo (eng.config.maxRetries + 1) eng executionId step i
          = (eng2, res) from hrun] at this
      exact this
    have ha : ∀ j, j ≠ i → stepAt eng2 executionId j = stepAt eng executionId j := by
      intro j hj
      have := hframe.2.2.2.2 j hj
      rw [show executeStepGo (eng.config.maxRetries + 1) eng executionId step i
          = (eng2, res) from hrun] at this
      exact this
    cases res with
    | ok u =>
      have hrw : runStepsReplay eng executionId (step :: rest) i
          = runStepsReplay eng2 executionId rest (i + 1) := by
        simp only [runStepsReplay, executeStep, hc]
        rw [show executeStepGo (eng.config.maxRetries + 1) eng executionId step i
            = (eng2, Except.ok u) from hrun]
      rw [hrw]
      obtain ⟨iw, ic, is2, ia⟩ := ih eng2 (i + 1)
      refine ⟨iw.trans hw, ic.trans hc, is2.trans hs, fun j hj => ?_⟩
      exact (ia j (by omega)).trans (ha j (by omega))
    | error e =>
      have hrw : runStepsReplay eng executionId (step :: rest) i = (eng2, Except.error e) := by
        simp only [runStepsReplay, executeStep, hc]
        rw [show executeStepGo (eng.config.maxRetries + 1) eng executionId step i
            = (eng2, Except.error e) from hrun]
      rw [hrw]
      exact ⟨hw, hc, hs, fun j hj => ha j (by omega)⟩


theorem sans_eq_fields {ex1 ex2 : Execution}
    (h : sansStepsRetry ex1 = sansStepsRetry ex2) :
    ex1.context = ex2.context ∧ ex1.triggerData = ex2.triggerData ∧
      ex1.status = ex2.status ∧ ex1.currentStep = ex2.currentStep ∧
      ex1.endTime = ex2.endTime := by
  unfold sansStepsRetry at h
  simp only [Prod.mk.injEq] at h
  exact ⟨h.2.2.2.2.2.2.1, h.2.2.2.2.2.1, h.2.2.1, h.2.2.2.1, h.2.2.2.2.2.2.2.2.1⟩

/-- A run of the replay loop in which every step function succeeds: it
returns `ok`, appends exactly the started/completed pairs for the indices
`i … i + n - 1` in ascending order, leaves `retryCount` untouched, and leaves
a completed record at each executed index. -/
theorem runStepsReplay_success (executionId : String) (ctx trig : EngBlob) :
    ∀ (steps : List JValue) (eng : Engine) (i : Nat),
      ((getExec eng executionId).map (fun ex => (ex.context, ex.triggerData))
          = some (ctx, trig)) →
      (∀ step ∈ steps, ∀ ex2 : Execution, ex2.context = ctx → ex2.triggerData = trig →
          ∃ r, executeStepFunction eng.config ex2 step = Except.ok r) →
      (runStepsReplay eng executionId steps i).2 = Except.ok () ∧
      (runStepsReplay eng executionId steps i).1.events
        = eng.events ++ runEvents executionId i steps.length ∧
      ((getExec (runStepsReplay eng executionId steps i).1 executionId).map
          Execution.retryCount
        = (getExec eng executionId).map Execution.retryCount) ∧
      (∀ k, k < steps.length →
        ((stepAt (runStepsReplay eng executionId steps i).1 executionId (i + k)).map
            (Option.map (fun rec => (rec.status, rec.index))))
          = some (some ("completed", i + k))) := by
  intro steps
  induction steps with
  | nil =>
    intro eng i hcur hok
    exact ⟨rfl, by simp [runStepsReplay, runEvents], rfl, fun k hk => by simp at hk⟩
  | cons step rest ih =>
    intro eng i hcur hok
    cases hex : getExec eng executionId with
    | none => rw [hex] at hcur; cases hcur
    | some ex =>
      rw [hex] at hcur
      simp only [Option.map_some', Option.some.injEq, Prod.mk.injEq] at hcur
      obtain ⟨r, hr⟩ := hok step (by simp) ex hcur.1 hcur.2
      have hsucc := executeStepGo_success eng executionId step i eng.config.maxRetries ex r hex hr
      rcases hrun : executeStep eng executionId step i with ⟨eng2, res⟩
      have hrun2 : executeStepGo (eng.config.maxRetries + 1) eng executionId step i
          = (eng2, res) := hrun
      rw [hrun2] at hsucc
      have hframe := executeStepGo_frame step i (eng.config.maxRetries + 1) eng executionId
      rw [hrun2] at hframe
      obtain ⟨hfw, hfc, hfo, hfs, hfa⟩ := hframe
      obtain ⟨hres, hev, hclk, hrng, hrc, hrec⟩ := hsucc
      simp only at hres
      subst hres
      have hex2 : ∃ ex2, getExec eng2 executionId = some ex2
          ∧ sansStepsRetry ex2 = sansStepsRetry ex := by
        rw [hex] at hfs
        cases he2 : getExec eng2 executionId with
        | none => rw [he2] at hfs; cases hfs
        | some ex2 =>
          rw [he2] at hfs
          simp only [Option.map_some', Option.some.injEq] at hfs
          exact ⟨ex2, rfl, hfs⟩
      obtain ⟨ex2, hex2e, hex2s⟩ := hex2
      obtain ⟨hctx2, htrig2, _, _, _⟩ := sans_eq_fields hex2s
      have hcur2 : (getExec eng2 executionId).map (fun ex => (ex.context, ex.triggerData))
          = some (ctx, trig) := by
        rw [hex2e]
        simp [hctx2, htrig2, hcur.1, hcur.2]
      have hok2 : ∀ step2 ∈ rest, ∀ ex3 : Execution, ex3.context = ctx →
          ex3.triggerData = trig →
          ∃ r2, executeStepFunction eng2.config ex3 step2 = Except.ok r2 := by
        intro step2 hm ex3 h1 h2
        rw [hfc]
        exact hok step2 (by simp [hm]) ex3 h1 h2
      have hrw : runStepsReplay eng executionId (step :: rest) i
          = runStepsReplay eng2 executionId rest (i + 1) := by
        simp only [runStepsReplay, executeStep]
        rw [hrun2]
      rw [hrw]
      obtain ⟨i1, i2, i3, i4⟩ := ih eng2 (i + 1) hcur2 hok2
      refine ⟨i1, ?_, ?_, ?_⟩
      · rw [i2, hev]
        simp [runEvents]
      · rw [i3, hrc]
        simp [hex]
      · intro k hk
        cases k with
        | zero =>
          have hpres := (runStepsReplay_frame executionId rest eng2 (i + 1)).2.2.2 i (by omega)
          simpa [hpres] using hrec
        | succ k2 =>
          have := i4 k2 (by simpa using hk)
          rw [show i + (k2 + 1) = (i + 1) + k2 from by omega]
          exact this


theorem assocSet_assocSet {α : Type} (l : List (String × α)) (k : String) (a b : α) :
    assocSet (assocSet l k a) k b = assocSet l k b := by
  induction l with
  | nil => simp [assocSet]
  | cons p t ih =>
    obtain ⟨k2, w⟩ := p
    by_cases h : k2 = k
    · simp [assocSet, h]
    · simp [assocSet, h, ih]

/-- Retry exhaustion: a retryable step whose step function always fails is
attempted once plus once per remaining unit of the execution-wide retry
budget; each retry waits `1000 × retryCount` ms, and at the end the step
record is `failed`, `retryCount` sits at `maxRetries`, and the error is
rethrown. -/
theorem executeStepGo_always_fails (stepJson : JValue) (stepIndex : Nat)
    (hretry : retryableNotFalse stepJson = true) :
    ∀ (fuel : Nat) (eng : Engine) (executionId : String) (ex : Execution),
      getExec eng executionId = some ex →
      (∀ ex2 : Execution, ∃ e, executeStepFunction eng.config ex2 stepJson = Except.error e) →
      ex.retryCount ≤ eng.config.maxRetries →
      eng.config.maxRetries - ex.retryCount + 1 ≤ fuel →
      (∃ e, (executeStepGo fuel eng executionId stepJson stepIndex).2 = Except.error e) ∧
      (executeStepGo fuel eng executionId stepJson stepIndex).1.events
        = eng.events
          ++ List.replicate (eng.config.maxRetries - ex.retryCount + 1)
              (Event.stepStarted executionId stepIndex)
          ++ [Event.stepFailed executionId stepIndex] ∧
      (executeStepGo fuel eng executionId stepJson stepIndex).1.clock
        = eng.clock
          + backoffFrom ex.retryCount (eng.config.maxRetries - ex.retryCount) ∧
      ((getExec (executeStepGo fuel eng executionId stepJson stepIndex).1 executionId).map
          Execution.retryCount = some eng.config.maxRetries) ∧
      ((stepAt (executeStepGo fuel eng executionId stepJson stepIndex).1 executionId
          stepIndex).map (Option.map (fun rec => rec.status)) = some (some "failed")) := by
  intro fuel
  induction fuel with
  | zero =>
    intro eng executionId ex hex hfail hrc hfuel
    omega
  | succ f ih =>
    intro eng executionId ex hex hfail hrc hfuel
    have hex2 : assocGet eng.executions executionId = some ex := hex
    obtain ⟨e, he⟩ := hfail ex
    have hrace : executeStepWithTimeout eng.config ex stepJson (some 0)
        = (Except.error e, 0) := by
      simp [executeStepWithTimeout, raceTimeout, he]
    simp only [executeStepGo, hex, hrace]
    split
    · -- retry branch
      rename_i hcond
      have hlt : ex.retryCount < eng.config.maxRetries := by
        rcases Bool.and_eq_true_iff.mp hcond with ⟨h1, _⟩
        exact of_decide_eq_true h1
      simp only [updateExec, setExec, emit, getExec, assocGet_assocSet_self,
        assocSet_assocSet]
      have hfuel2 : eng.config.maxRetries - (ex.retryCount + 1) + 1 ≤ f := by omega
      obtain ⟨k1, k2, k3, k4, k5⟩ := ih
        { workflows := eng.workflows,
          executions := assocSet eng.executions executionId
            { id := ex.id, workflowId := ex.workflowId, status := ex.status,
              currentStep := ex.currentStep, startTime := ex.startTime,
              triggerData := ex.triggerData, context := ex.context,
              steps := listModify (listSet ex.steps stepIndex
                  { index := stepIndex, name := getProp stepJson "name",
                    stype := getProp stepJson "type", startTime := eng.clock,
                    status := "running", endTime := none, result := none, error := none })
                stepIndex (fun sr =>
                  { index := sr.index, name := sr.name, stype := sr.stype,
                    startTime := sr.startTime, status := "failed",
                    endTime := some (eng.clock + 0), result := sr.result,
                    error := some e }),
              retryCount := ex.retryCount + 1, options := ex.options,
              endTime := ex.endTime, error := ex.error },
          config := eng.config,
          events := eng.events ++ [Event.stepStarted executionId stepIndex],
          clock := eng.clock + 0 + 1000 * (ex.retryCount + 1), rng := eng.rng }
        executionId _ (assocGet_assocSet_self _ _ _) hfail
        (by show ex.retryCount + 1 ≤ eng.config.maxRetries; omega) hfuel2
      refine ⟨k1, k2.trans ?_, k3.trans ?_, k4.trans rfl, k5⟩
      · rw [show eng.config.maxRetries - ex.retryCount + 1
            = (eng.config.maxRetries - (ex.retryCount + 1) + 1) + 1 from by omega,
          List.replicate_succ]
        simp [List.replicate_succ]
      · show eng.clock + 0 + 1000 * (ex.retryCount + 1)
            + backoffFrom (ex.retryCount + 1) (eng.config.maxRetries - (ex.retryCount + 1))
          = eng.clock + backoffFrom ex.retryCount (eng.config.maxRetries - ex.retryCount)
        rw [show eng.config.maxRetries - ex.retryCount
            = (eng.config.maxRetries - (ex.retryCount + 1)) + 1 from by omega]
        simp only [backoffFrom]
        omega
    · rename_i hcond
      have hge : eng.config.maxRetries ≤ ex.retryCount := by
        by_contra hlt2
        apply hcond
        rw [Bool.and_eq_true_iff]
        exact ⟨decide_eq_true (by omega), hretry⟩
      have heq : eng.config.maxRetries = ex.retryCount := by omega
      refine ⟨⟨e, rfl⟩, ?_, ?_, ?_, ?_⟩
      · simp [updateExec, setExec, emit, getExec, assocGet_assocSet_self]
        rw [show eng.config.maxRetries - ex.retryCount = 0 from by omega]
        simp
      · simp [updateExec, setExec, emit, getExec, assocGet_assocSet_self]
        rw [show eng.config.maxRetries - ex.retryCount = 0 from by omega]
        simp [backoffFrom]
      · simp [updateExec, setExec, emit, getExec, assocGet_assocSet_self, heq]
      · simp [updateExec, setExec, emit, getExec, stepAt, assocGet_assocSet_self,
          listModify_getD_self, listSet_getD_self]


/-- A step marked `retryable: false` is never re-invoked: a failing attempt
fails the step at once — one `step:started`, no backoff wait, `retryCount`
untouched. -/
theorem executeStepGo_nonretryable (stepJson : JValue) (stepIndex : Nat)
    (hretry : retryableNotFalse stepJson = false)
    (fuel : Nat) (eng : Engine) (executionId : String) (ex : Execution)
    (hex : getExec eng executionId = some ex)
    (e : String) (he : executeStepFunction eng.config ex stepJson = Except.error e) :
    (executeStepGo (fuel + 1) eng executionId stepJson stepIndex).2 = Except.error e ∧
    (executeStepGo (fuel + 1) eng executionId stepJson stepIndex).1.events
      = eng.events ++ [Event.stepStarted executionId stepIndex,
          Event.stepFailed executionId stepIndex] ∧
    (executeStepGo (fuel + 1) eng executionId stepJson stepIndex).1.clock = eng.clock ∧
    ((getExec (executeStepGo (fuel + 1) eng executionId stepJson stepIndex).1 executionId).map
        Execution.retryCount = some ex.retryCount) ∧
    ((stepAt (executeStepGo (fuel + 1) eng executionId stepJson stepIndex).1 executionId
        stepIndex).map (Option.map (fun rec => rec.status)) = some (some "failed")) := by
  have hex2 : assocGet eng.executions executionId = some ex := hex
  have hrace : executeStepWithTimeout eng.config ex stepJson (some 0)
      = (Except.error e, 0) := by
    simp [executeStepWithTimeout, raceTimeout, he]
  simp only [executeStepGo, hex, hrace]
  split
  · rename_i hcond
    rcases Bool.and_eq_true_iff.mp hcond with ⟨_, h2⟩
    rw [hretry] at h2
    cases h2
  · refine ⟨rfl, ?_, ?_, ?_, ?_⟩
    · simp [updateExec, setExec, emit, getExec, assocGet_assocSet_self]
    · simp [updateExec, setExec, emit, getExec, assocGet_assocSet_self]
    · simp [updateExec, setExec, emit, getExec, assocGet_assocSet_self, hex2]
    · simp [updateExec, setExec, emit, getExec, stepAt, assocGet_assocSet_self,
        listModify_getD_self, listSet_getD_self]

theorem countStepStarted_append (a b : List Event) (executionId : String) (i : Nat) :
    countStepStarted (a ++ b) executionId i
      = countStepStarted a executionId i + countStepStarted b executionId i := by
  simp [countStepStarted, List.filter_append]

theorem countStepStarted_replicate (n : Nat) (executionId : String) (i : Nat) :
    countStepStarted (List.replicate n (Event.stepStarted executionId i)) executionId i = n := by
  induction n with
  | zero => rfl
  | succ k ih =>
    rw [List.replicate_succ]
    have : countStepStarted (Event.stepStarted executionId i
        :: List.replicate k (Event.stepStarted executionId i)) executionId i
        = 1 + countStepStarted (List.replicate k (Event.stepStarted executionId i))
            executionId i := by
      simp [countStepStarted]
      omega
    rw [this, ih]
    omega

theorem countStepStarted_failed (executionId : String) (i : Nat) :
    countStepStarted [Event.stepFailed executionId i] executionId i = 0 := by
  simp [countStepStarted]

/-! ### Concrete scenario fixtures -/

/-- A fresh engine with the default configuration (`maxRetries = 3`,
`stepTimeout = 30000`) and key `[1]`. -/
def engW : Engine :=
  { workflows := [], executions := [],
    config := { encryptionKey := [1], maxRetries := 3, stepTimeout := 30000,
                enableAuditLog := true, privacyMode := false },
    events := [], clock := 0, rng := 0 }

/-- A one-step workflow whose single step is `custom` with a handler
supplied at registration (the handler is a function and does not survive the
JSON serialization of the definition). -/
def d4 : WorkflowDefInput :=
  { name := some "w", trigger := some (JValue.jobj [("type", JValue.jstr "manual")]),
    steps := some [{ name := some "s", stype := some "custom", handlerPresent := true }] }

/-- Register `d4` and execute it: the always-throwing step scenario. -/
def run4 : Engine × Except String String :=
  executeWorkflow (registerWorkflow engW d4).1 "wf_w_0" (JValue.jobj []) (JValue.jobj [])

/-- C4: the retry rule. (1) A retryable step whose step function always
fails is re-attempted while the execution-wide `retryCount` is below
`maxRetries`: starting from any budget already consumed, the engine makes
exactly `maxRetries - retryCount + 1` attempts at the same index, waits
`1000 × retryCount` ms before each re-attempt (total
`backoffFrom retryCount (maxRetries - retryCount)`), leaves `retryCount` at
`maxRetries` — the budget is execution-wide, shared across the steps — and
rethrows the error. (2) A step with `retryable: false` is attempted exactly
once, with no wait and no budget consumption. (3) End to end, with
`maxRetries = 3` and a one-step workflow whose custom step always throws,
the execution ends with status `failed` after exactly 4 attempts
(1 initial + 3 retries) at step index 0, with 6000 ms of backoff. -/
theorem c4_retry_rule :
    (∀ (eng : Engine) (executionId : String) (stepJson : JValue) (stepIndex : Nat)
        (ex : Execution),
      retryableNotFalse stepJson = true →
      getExec eng executionId = some ex →
      (∀ ex2 : Execution, ∃ e, executeStepFunction eng.config ex2 stepJson = Except.error e) →
      ex.retryCount ≤ eng.config.maxRetries →
      countStepStarted (executeStep eng executionId stepJson stepIndex).1.events executionId
          stepIndex
        = countStepStarted eng.events executionId stepIndex
            + (eng.config.maxRetries - ex.retryCount + 1) ∧
      (executeStep eng executionId stepJson stepIndex).1.clock
        = eng.clock + backoffFrom ex.retryCount (eng.config.maxRetries - ex.retryCount) ∧
      ((getExec (executeStep eng executionId stepJson stepIndex).1 executionId).map
          Execution.retryCount = some eng.config.maxRetries) ∧
      (∃ e, (executeStep eng executionId stepJson stepIndex).2 = Except.error e)) ∧
    (∀ (eng : Engine) (executionId : String) (stepJson : JValue) (stepIndex : Nat)
        (ex : Execution) (e : String),
      retryableNotFalse stepJson = false →
      getExec eng executionId = some ex →
      executeStepFunction eng.config ex stepJson = Except.error e →
      countStepStarted (executeStep eng executionId stepJson stepIndex).1.events executionId
          stepIndex
        = countStepStarted eng.events executionId stepIndex + 1 ∧
      (executeStep eng executionId stepJson stepIndex).1.clock = eng.clock ∧
      ((getExec (executeStep eng executionId stepJson stepIndex).1 executionId).map
          Execution.retryCount = some ex.retryCount) ∧
      (executeStep eng executionId stepJson stepIndex).2 = Except.error e) ∧
    (((getExec run4.1 "exec_1").map Execution.status = some "failed") ∧
      countStepStarted run4.1.events "exec_1" 0 = 4 ∧
      run4.2 = Except.error "Custom step requires handler function" ∧
      run4.1.clock = 6000) := by
  refine ⟨?_, ?_, ?_, ?_, ?_, ?_⟩
  · intro eng executionId stepJson stepIndex ex h1 hex hfail hrc
    obtain ⟨k1, k2, k3, k4, k5⟩ := executeStepGo_always_fails stepJson stepIndex h1
      (eng.config.maxRetries + 1) eng executionId ex hex hfail hrc (by omega)
    refine ⟨?_, k3, k4, k1⟩
    rw [show (executeStep eng executionId stepJson stepIndex).1.events
        = (executeStepGo (eng.config.maxRetries + 1) eng executionId stepJson stepIndex).1.events
        from rfl, k2, countStepStarted_append, countStepStarted_append,
      countStepStarted_replicate, countStepStarted_failed]
    omega
  · intro eng executionId stepJson stepIndex ex e h1 hex he
    obtain ⟨k1, k2, k3, k4, k5⟩ := executeStepGo_nonretryable stepJson stepIndex h1
      eng.config.maxRetries eng executionId ex hex e he
    refine ⟨?_, k3, k4, k1⟩
    rw [show (executeStep eng executionId stepJson stepIndex).1.events
        = (executeStepGo (eng.config.maxRetries + 1) eng executionId stepJson stepIndex).1.events
        from rfl, k2, countStepStarted_append]
    simp [countStepStarted]
  · rfl
  · rfl
  · rfl
  · rfl

/-- Witness for C4's quantified parts: the general retryable bound applied at
the concrete engine of the scenario reproduces the observable 4-attempt
count, and the non-retryable part applied to a concrete failing step gives a
single attempt. -/
theorem c4_retry_rule_witness :
    countStepStarted
        (executeStep
          { engW with
              executions := [("e1",
                { id := "e1", workflowId := "w", status := "running", currentStep := 0,
                  startTime := 0,
                  triggerData := (engEncrypt engW (JValue.jobj [])).1,
                  context := (engEncrypt engW (JValue.jobj [])).1,
                  steps := [], retryCount := 0, options := JValue.jobj [] })] }
          "e1" (JValue.jobj [("type", JValue.jstr "custom")]) 0).1.events "e1" 0 = 4 := by
  have h := (c4_retry_rule.1
    { engW with
        executions := [("e1",
          { id := "e1", workflowId := "w", status := "running", currentStep := 0,
            startTime := 0,
            triggerData := (engEncrypt engW (JValue.jobj [])).1,
            context := (engEncrypt engW (JValue.jobj [])).1,
            steps := [], retryCount := 0, options := JValue.jobj [] })] }
    "e1" (JValue.jobj [("type", JValue.jstr "custom")]) 0
    { id := "e1", workflowId := "w", status := "running", currentStep := 0,
      startTime := 0,
      triggerData := (engEncrypt engW (JValue.jobj [])).1,
      context := (engEncrypt engW (JValue.jobj [])).1,
      steps := [], retryCount := 0, options := JValue.jobj [] }
    rfl rfl (fun ex2 => by
      show ∃ e, executeStepFunction engW.config ex2 (JValue.jobj [("type", JValue.jstr "custom")])
        = Except.error e
      unfold executeStepFunction
      cases hc : engDecrypt engW.config ex2.context with
      | error e => exact ⟨e, rfl⟩
      | ok c =>
        cases ht : engDecrypt engW.config ex2.triggerData with
        | error e => exact ⟨e, rfl⟩
        | ok t => exact ⟨"Custom step requires handler function", rfl⟩)
    (by decide)).1
  rw [h]
  rfl


theorem updateExec_proj (eng : Engine) (executionId : String) (f : Execution → Execution) :
    (updateExec eng executionId f).events = eng.events ∧
    (updateExec eng executionId f).clock = eng.clock ∧
    (updateExec eng executionId f).workflows = eng.workflows ∧
    (updateExec eng executionId f).config = eng.config := by
  unfold updateExec
  cases getExec eng executionId <;> exact ⟨rfl, rfl, rfl, rfl⟩

theorem stepAt_updateExec (eng : Engine) (executionId : String) (f : Execution → Execution)
    (hf : ∀ ex, (f ex).steps = ex.steps) (j : Nat) :
    stepAt (updateExec eng executionId f) executionId j = stepAt eng executionId j := by
  cases hex : getExec eng executionId with
  | none => simp [updateExec, hex]
  | some ex =>
    have hex2 : assocGet eng.executions executionId = some ex := hex
    simp [updateExec, hex2, stepAt, setExec, getExec, assocGet_assocSet_self, hf]

/-- C6: replay frame property. Part 1 (the frame, for every outcome): every
`StepExecution` record at an index strictly below `fromStep` is left
byte-for-byte unchanged by `replayExecution`. Part 2 (the replay, when the
execution, its workflow and the decrypted definition exist and every replayed
step function succeeds): the call returns ok; the event log gains
`execution:replaying` followed by exactly the started/completed pairs of the
step indices `fromStep … last` in ascending order; the final record has
`currentStep = fromStep`, `retryCount = 0` (the reset values, which the
successful loop never changes) and status `completed`; and every step record
from `fromStep` to the last is overwritten with a completed record carrying
its own index. -/
theorem c6_replay_frame :
    (∀ (eng : Engine) (executionId : String) (fromStep : Nat) (j : Nat), j < fromStep →
      stepAt (replayExecution eng executionId fromStep).1 executionId j
        = stepAt eng executionId j) ∧
    (∀ (eng : Engine) (executionId : String) (fromStep : Nat) (ex : Execution)
        (wf : StoredWorkflow) (workflowDef : JValue),
      getExec eng executionId = some ex →
      assocGet eng.workflows ex.workflowId = some wf →
      engDecrypt eng.config wf.definition = Except.ok workflowDef →
      (∀ step ∈ List.drop fromStep (stepsOf workflowDef), ∀ ex2 : Execution,
        ex2.context = ex.context → ex2.triggerData = ex.triggerData →
        ∃ r, executeStepFunction eng.config ex2 step = Except.ok r) →
      (replayExecution eng executionId fromStep).2 = Except.ok () ∧
      (replayExecution eng executionId fromStep).1.events
        = eng.events ++ [Event.executionReplaying executionId fromStep]
            ++ runEvents executionId fromStep ((stepsOf workflowDef).length - fromStep) ∧
      ((getExec (replayExecution eng executionId fromStep).1 executionId).map
          (fun e2 => (e2.status, e2.currentStep, e2.retryCount)))
        = some ("completed", fromStep, 0) ∧
      (∀ k, fromStep + k < (stepsOf workflowDef).length →
        ((stepAt (replayExecution eng executionId fromStep).1 executionId (fromStep + k)).map
            (Option.map (fun rec => (rec.status, rec.index))))
          = some (some ("completed", fromStep + k)))) := by
  constructor
  · intro eng executionId fromStep j hj
    cases hex : getExec eng executionId with
    | none => simp [replayExecution, hex]
    | some ex =>
      cases hwf : assocGet eng.workflows ex.workflowId with
      | none => simp [replayExecution, hex, hwf]
      | some wf =>
        cases hdef : engDecrypt eng.config wf.definition with
        | error e => simp [replayExecution, hex, hwf, hdef]
        | ok workflowDef =>
          have hfr := runStepsReplay_frame executionId
            (List.drop fromStep (stepsOf workflowDef))
            (emit (updateExec eng executionId (fun e2 =>
              { e2 with status := "running", currentStep := fromStep, retryCount := 0 }))
              (Event.executionReplaying executionId fromStep)) fromStep
          rcases hLR : runStepsReplay (emit (updateExec eng executionId (fun e2 =>
              { e2 with status := "running", currentStep := fromStep, retryCount := 0 }))
              (Event.executionReplaying executionId fromStep)) executionId
              (List.drop fromStep (stepsOf workflowDef)) fromStep with ⟨engL, res⟩
          rw [hLR] at hfr
          dsimp only at hfr
          have hstep : stepAt engL executionId j = stepAt eng executionId j := by
            have h2 : stepAt (emit (updateExec eng executionId (fun e2 =>
                { e2 with status := "running", currentStep := fromStep, retryCount := 0 }))
                (Event.executionReplaying executionId fromStep)) executionId j
                = stepAt eng executionId j :=
              stepAt_updateExec eng executionId (fun e2 =>
                { e2 with status := "running", currentStep := fromStep, retryCount := 0 })
                (fun _ => rfl) j
            exact (hfr.2.2.2 j hj).trans h2
          cases res with
          | ok u =>
            simp only [replayExecution, hex, hwf, hdef, hLR]
            rw [stepAt_updateExec engL executionId (fun e2 =>
              { e2 with status := "completed", endTime := some engL.clock })
              (fun _ => rfl) j]
            exact hstep
          | error e =>
            simp only [replayExecution, hex, hwf, hdef, hLR]
            rw [stepAt_updateExec engL executionId (fun e2 =>
              { e2 with status := "failed", error := some e })
              (fun _ => rfl) j]
            exact hstep
  · intro eng executionId fromStep ex wf workflowDef hex hwf hdef hok
    have hex2 : getExec (emit (updateExec eng executionId (fun e2 =>
        { e2 with status := "running", currentStep := fromStep, retryCount := 0 }))
        (Event.executionReplaying executionId fromStep)) executionId
        = some { ex with status := "running", currentStep := fromStep, retryCount := 0 } := by
      rw [getExec_emit, getExec_updateExec_self eng executionId _ ex hex]
    have hcfg2 : (emit (updateExec eng executionId (fun e2 =>
        { e2 with status := "running", currentStep := fromStep, retryCount := 0 }))
        (Event.executionReplaying executionId fromStep)).config = eng.config := by
      rw [updateExec_eq eng executionId _ ex hex]
      rfl
    have hev2 : (emit (updateExec eng executionId (fun e2 =>
        { e2 with status := "running", currentStep := fromStep, retryCount := 0 }))
        (Event.executionReplaying executionId fromStep)).events
        = eng.events ++ [Event.executionReplaying executionId fromStep] := by
      rw [updateExec_eq eng executionId _ ex hex]
      rfl
    have hcur2 : (getExec (emit (updateExec eng executionId (fun e2 =>
        { e2 with status := "running", currentStep := fromStep, retryCount := 0 }))
        (Event.executionReplaying executionId fromStep)) executionId).map
        (fun e2 => (e2.context, e2.triggerData)) = some (ex.context, ex.triggerData) := by
      rw [hex2]
      rfl
    have hok2 : ∀ step ∈ List.drop fromStep (stepsOf workflowDef), ∀ ex2 : Execution,
        ex2.context = ex.context → ex2.triggerData = ex.triggerData →
        ∃ r, executeStepFunction (emit (updateExec eng executionId (fun e2 =>
          { e2 with status := "running", currentStep := fromStep, retryCount := 0 }))
          (Event.executionReplaying executionId fromStep)).config ex2 step
          = Except.ok r := by
      rw [hcfg2]
      exact hok
    obtain ⟨k1, k2, k3, k4⟩ := runStepsReplay_success executionId ex.context ex.triggerData
      (List.drop fromStep (stepsOf workflowDef))
      (emit (updateExec eng executionId (fun e2 =>
        { e2 with status := "running", currentStep := fromStep, retryCount := 0 }))
        (Event.executionReplaying executionId fromStep)) fromStep hcur2 hok2
    have hfr := runStepsReplay_frame executionId (List.drop fromStep (stepsOf workflowDef))
      (emit (updateExec eng executionId (fun e2 =>
        { e2 with status := "running", currentStep := fromStep, retryCount := 0 }))
        (Event.executionReplaying executionId fromStep)) fromStep
    rcases hLR : runStepsReplay (emit (updateExec eng executionId (fun e2 =>
        { e2 with status := "running", currentStep := fromStep, retryCount := 0 }))
        (Event.executionReplaying executionId fromStep)) executionId
        (List.drop fromStep (stepsOf workflowDef)) fromStep with ⟨engL, res⟩
    rw [hLR] at k1 k2 k3 k4 hfr
    dsimp only at k1 k2 k3 k4 hfr
    subst k1
    have hrepl : replayExecution eng executionId fromStep
        = (updateExec engL executionId (fun e2 =>
            { e2 with status := "completed", endTime := some engL.clock }), Except.ok ()) := by
      simp only [replayExecution, hex, hwf, hdef, hLR]
    refine ⟨?_, ?_, ?_, ?_⟩
    · rw [hrepl]
    · rw [hrepl]
      show (updateExec engL executionId _).events = _
      rw [(updateExec_proj engL executionId _).1, k2, hev2, List.length_drop]
    · cases hlex : getExec engL executionId with
      | none =>
        rw [hlex, hex2] at k3
        simp at k3
      | some lrex =>
        have hrc : lrex.retryCount = 0 := by
          rw [hlex, hex2] at k3
          simpa using k3
        have hsans := hfr.2.2.1
        rw [hlex, hex2] at hsans
        have hfields := sans_eq_fields (show sansStepsRetry lrex = sansStepsRetry
            { ex with status := "running", currentStep := fromStep, retryCount := 0 } by
          simpa using hsans)
        have hcs : lrex.currentStep = fromStep := by
          simpa using hfields.2.2.2.1
        rw [hrepl]
        show ((getExec (updateExec engL executionId _) executionId).map _) = _
        rw [getExec_updateExec_self engL executionId _ lrex hlex]
        simp [hrc, hcs]
    · intro k hk
      rw [hrepl]
      show ((stepAt (updateExec engL executionId _) executionId (fromStep + k)).map _) = _
      rw [stepAt_updateExec engL executionId (fun e2 =>
        { e2 with status := "completed", endTime := some engL.clock })
        (fun _ => rfl) (fromStep + k)]
      exact k4 k (by rw [List.length_drop]; omega)

/-- A registered two-step definition (`scan` then `notify`) as decrypted from
the store. -/
def defR : JValue :=
  JValue.jobj [("name", JValue.jstr "w2"),
    ("trigger", JValue.jobj [("type", JValue.jstr "manual")]),
    ("steps", JValue.jarr [JValue.jobj [("type", JValue.jstr "scan")],
      JValue.jobj [("type", JValue.jstr "notify")]])]

/-- A completed step record at an index, as left by an earlier run. -/
def recR (i : Nat) : StepExecution :=
  { index := i, name := none, stype := some (JValue.jstr "scan"), startTime := 0,
    status := "completed" }

/-- A finished execution of `defR` with both step records present. -/
def exR : Execution :=
  { id := "e1", workflowId := "w2", status := "completed", currentStep := 1, startTime := 0,
    triggerData := (engEncrypt engW (JValue.jobj [])).1,
    context := (engEncrypt engW (JValue.jobj [])).1,
    steps := [some (recR 0), some (recR 1)], retryCount := 0, options := JValue.jobj [],
    endTime := some 0 }

/-- The engine holding `defR` (encrypted) and the finished execution `exR`. -/
def engR : Engine :=
  { engW with
      workflows :=
        [("w2", { id := "w2", definition := (engEncrypt engW defR).1, registeredAt := 0 })],
      executions := [("e1", exR)] }

/-- Witness for C6: replaying `exR` from step 1 leaves the record at index 0
untouched and succeeds. -/
theorem c6_replay_frame_witness :
    stepAt (replayExecution engR "e1" 1).1 "e1" 0 = stepAt engR "e1" 0 ∧
    (replayExecution engR "e1" 1).2 = Except.ok () := by
  constructor
  · exact c6_replay_frame.1 engR "e1" 1 0 (by decide)
  · refine (c6_replay_frame.2 engR "e1" 1 exR
      { id := "w2", definition := (engEncrypt engW defR).1, registeredAt := 0 }
      defR (by rfl) (by rfl) (engDecrypt_engEncrypt engW defR) ?_).1
    intro step hstep ex2 h1 h2
    have hstep2 : step = JValue.jobj [("type", JValue.jstr "notify")] := by
      simpa [stepsOf, defR, getProp, lookupField] using hstep
    have hc : engDecrypt engR.config ex2.context = Except.ok (JValue.jobj []) := by
      rw [h1]
      exact engDecrypt_engEncrypt engW (JValue.jobj [])
    have ht : engDecrypt engR.config ex2.triggerData = Except.ok (JValue.jobj []) := by
      rw [h2]
      exact engDecrypt_engEncrypt engW (JValue.jobj [])
    refine ⟨JValue.jobj [("notified", JValue.jbool true), ("recipients", JValue.jarr [])], ?_⟩
    rw [hstep2]
    unfold executeStepFunction
    rw [hc, ht]
    rfl


/-- A running execution of `defR` before any step has been dispatched. -/
def exRun : Execution :=
  { id := "e1", workflowId := "w2", status := "running", currentStep := 0, startTime := 0,
    triggerData := (engEncrypt engW (JValue.jobj [])).1,
    context := (engEncrypt engW (JValue.jobj [])).1,
    steps := [], retryCount := 0, options := JValue.jobj [] }

/-- The engine holding `defR` (encrypted) and the in-flight execution
`exRun`. -/
def engRun : Engine :=
  { engW with
      workflows :=
        [("w2", { id := "w2", definition := (engEncrypt engW defR).1, registeredAt := 0 })],
      executions := [("e1", exRun)] }

/-- The engine right after `stopExecution` is called on the in-flight
execution. -/
def stopRun : Engine := (stopExecution engRun "e1").1

/-- The in-flight run loop continuing after the stop, then finishing: the
remaining steps are dispatched and `finishExecution` records the final
status. -/
def contRun : Engine × Except String String :=
  match runStepsMain stopRun "e1" (stepsOf defR) 0 with
  | (engM, r) => finishExecution engM "e1" "w2" r

/-- C9: the status `stopped` is not terminal. (1) `stopExecution` on an
existing execution returns ok, emits `execution:stopped` and sets
`status = "stopped"` and `endTime` — and changes nothing the step dispatcher
reads (context, trigger data, step records, retry count, current step), so it
cannot halt an in-flight loop. (2) `finishExecution` overwrites the status
unconditionally — whatever the status was, a finishing loop stores
`completed` (or `failed`). (3) Concretely: stopping the in-flight execution
of the two-step workflow sets `stopped`, yet when its loop continues and
finishes, the final status is `completed`, the run returns the execution id
and the post-stop step still ran. -/
theorem c9_stopped_not_terminal :
    (∀ (eng : Engine) (executionId : String) (ex : Execution),
      getExec eng executionId = some ex →
      (stopExecution eng executionId).2 = Except.ok () ∧
      (stopExecution eng executionId).1.events
        = eng.events ++ [Event.executionStopped executionId] ∧
      ((getExec (stopExecution eng executionId).1 executionId).map
          (fun e2 => (e2.status, e2.endTime)) = some ("stopped", some eng.clock)) ∧
      ((getExec (stopExecution eng executionId).1 executionId).map
          (fun e2 => (e2.context, e2.triggerData, e2.steps, e2.retryCount, e2.currentStep))
        = some (ex.context, ex.triggerData, ex.steps, ex.retryCount, ex.currentStep))) ∧
    (∀ (eng : Engine) (executionId wid : String) (ex : Execution),
      getExec eng executionId = some ex →
      ((getExec (finishExecution eng executionId wid (Except.ok ())).1 executionId).map
          Execution.status = some "completed") ∧
      (∀ e, (getExec (finishExecution eng executionId wid (Except.error e)).1
          executionId).map Execution.status = some "failed")) ∧
    (((getExec stopRun "e1").map Execution.status = some "stopped") ∧
      (getExec contRun.1 "e1").map Execution.status = some "completed" ∧
      contRun.2 = Except.ok "e1" ∧
      countStepStarted contRun.1.events "e1" 1 = 1) := by
  refine ⟨?_, ?_, ?_, ?_, ?_, ?_⟩
  · intro eng executionId ex hex
    refine ⟨?_, ?_, ?_, ?_⟩
    · simp only [stopExecution, hex]
    · simp only [stopExecution, hex]
      rw [updateExec_eq eng executionId _ ex hex]
      rfl
    · simp only [stopExecution, hex]
      rw [getExec_emit, getExec_updateExec_self eng executionId _ ex hex]
      rfl
    · simp only [stopExecution, hex]
      rw [getExec_emit, getExec_updateExec_self eng executionId _ ex hex]
      rfl
  · intro eng executionId wid ex hex
    constructor
    · show ((getExec (emit (updateExec eng executionId _) _) executionId).map _) = _
      rw [getExec_emit, getExec_updateExec_self eng executionId _ ex hex]
      rfl
    · intro e
      show ((getExec (emit (updateExec eng executionId _) _) executionId).map _) = _
      rw [getExec_emit, getExec_updateExec_self eng executionId _ ex hex]
      rfl
  · rfl
  · rfl
  · rfl
  · rfl

/-- Witness for C9's quantified parts at the concrete in-flight engine. -/
theorem c9_stopped_not_terminal_witness :
    (stopExecution engRun "e1").2 = Except.ok () ∧
    ((getExec (finishExecution engRun "e1" "w2" (Except.ok ())).1 "e1").map
      Execution.status = some "completed") :=
  ⟨(c9_stopped_not_terminal.1 engRun "e1" exRun (by rfl)).1,
    (c9_stopped_not_terminal.2.1 engRun "e1" "w2" exRun (by rfl)).1⟩


/-- A definition whose `steps` field is present but an empty array. -/
def dEmpty : WorkflowDefInput :=
  { name := some "n", trigger := some (JValue.jstr "push"), steps := some [] }

/-- A definition with no `steps` field at all. -/
def dNoSteps : WorkflowDefInput :=
  { name := some "n", trigger := some (JValue.jstr "push"), steps := none }

/-- A definition with one built-in step. -/
def dOneStep : WorkflowDefInput :=
  { name := some "n", trigger := some (JValue.jstr "push"),
    steps := some [{ name := some "s", stype := some "scan", handlerPresent := false }] }

/-- Counterexample to C5: a definition whose `steps` field is an empty array
passes validation — `registerWorkflow` returns the generated id and stores
the workflow (with a `workflow:registered` event) instead of failing. The JS
guard `!workflowDef.steps` is false for `[]` (an array is truthy regardless
of length), so the "non-empty steps" half of the claim does not hold. -/
theorem c5_empty_steps_registers :
    (registerWorkflow engW dEmpty).2 = Except.ok "wf_n_0" ∧
    (assocGet (registerWorkflow engW dEmpty).1.workflows "wf_n_0").isSome = true ∧
    (registerWorkflow engW dEmpty).1.events = [Event.workflowRegistered "wf_n_0"] :=
  ⟨rfl, rfl, rfl⟩

/-- C5 (amended): `registerWorkflow` fails with the validation error and
registers nothing — the engine is returned unchanged — exactly when `name` is
falsy, `trigger` is falsy, or the `steps` field is absent; a present `steps`
array, **including an empty one**, passes validation, and the workflow is
then stored under the computed id with a `workflow:registered` event. (When
`name` is absent and no id is supplied, the id generation itself throws a
TypeError before validation; the hypothesis restricts to definitions whose id
computation succeeds.) -/
theorem c5_validation_characterization :
    ∀ (eng : Engine) (d : WorkflowDefInput) (workflowId : String),
      workflowIdOf d eng.clock = Except.ok workflowId →
      ((nameFalsy d.name || !(jsTruthy d.trigger) || d.steps.isNone) = true →
        (registerWorkflow eng d).2 = Except.error
          "Invalid workflow definition: name, trigger, and steps are required" ∧
        (registerWorkflow eng d).1 = eng) ∧
      ((nameFalsy d.name || !(jsTruthy d.trigger) || d.steps.isNone) = false →
        (registerWorkflow eng d).2 = Except.ok workflowId ∧
        (assocGet (registerWorkflow eng d).1.workflows workflowId).isSome = true ∧
        (registerWorkflow eng d).1.events
          = eng.events ++ [Event.workflowRegistered workflowId]) := by
  intro eng d workflowId hw
  constructor
  · intro hc
    constructor
    · simp [registerWorkflow, hw, hc]
    · simp [registerWorkflow, hw, hc]
  · intro hc
    refine ⟨?_, ?_, ?_⟩
    · simp [registerWorkflow, hw, hc]
    · simp [registerWorkflow, hw, hc, emit, assocGet_assocSet_self]
    · simp [registerWorkflow, hw, hc, emit, engEncrypt]

/-- Witness for C5's amended rule: a definition without a `steps` field is
rejected with the engine unchanged, and one with a (non-empty) `steps` array
is registered. -/
theorem c5_validation_witness :
    ((registerWorkflow engW dNoSteps).2
      = Except.error "Invalid workflow definition: name, trigger, and steps are required" ∧
    (registerWorkflow engW dNoSteps).1 = engW) ∧
    (registerWorkflow engW dOneStep).2 = Except.ok "wf_n_0" :=
  ⟨(c5_validation_characterization engW dNoSteps "wf_n_0" (by rfl)).1 (by decide),
    ((c5_validation_characterization engW dOneStep "wf_n_0" (by rfl)).2 (by decide)).1⟩


/-- C7: timeout enforcement. (1) If the step function's promise has not
settled by `stepTimeout` ms (it settles strictly later, or never), the
attempt fails with the `Step timeout after <stepTimeout>ms` error exactly
`stepTimeout` ms after it started. (2) The race's verdict is then independent
of the handler's eventual outcome — the losing invocation is not interrupted,
it merely has no observer. (3) In every case the attempt is decided no later
than `stepTimeout` ms after it started. -/
theorem c7_timeout_enforcement :
    (∀ (cfg : EngineConfig) (ex : Execution) (stepJson : JValue) (settle : Option Nat),
      (∀ t, settle = some t → cfg.stepTimeout < t) →
      executeStepWithTimeout cfg ex stepJson settle
        = (Except.error ("Step timeout after " ++ toString cfg.stepTimeout ++ "ms"),
            cfg.stepTimeout)) ∧
    (∀ (timeoutMs : Nat) (settle : Option Nat) (o1 o2 : Except String JValue),
      (∀ t, settle = some t → timeoutMs < t) →
      raceTimeout timeoutMs settle o1 = raceTimeout timeoutMs settle o2) ∧
    (∀ (cfg : EngineConfig) (ex : Execution) (stepJson : JValue) (settle : Option Nat),
      (executeStepWithTimeout cfg ex stepJson settle).2 ≤ cfg.stepTimeout) := by
  refine ⟨?_, ?_, ?_⟩
  · intro cfg ex stepJson settle h
    cases settle with
    | none => rfl
    | some t =>
      have ht := h t rfl
      simp [executeStepWithTimeout, raceTimeout]
      omega
  · intro timeoutMs settle o1 o2 h
    cases settle with
    | none => rfl
    | some t =>
      have ht := h t rfl
      simp only [raceTimeout]
      rw [if_neg (by omega), if_neg (by omega)]
  · intro cfg ex stepJson settle
    cases settle with
    | none => simp [executeStepWithTimeout, raceTimeout]
    | some t =>
      simp only [executeStepWithTimeout, raceTimeout]
      split
      · rename_i h2
        simpa using h2
      · simp

/-- Witness for C7: with the default 30000 ms timeout, a handler that would
settle at 30001 ms loses the race and the attempt fails at 30000 ms. -/
theorem c7_timeout_enforcement_witness :
    executeStepWithTimeout engW.config exRun (JValue.jobj [("type", JValue.jstr "scan")])
      (some 30001) = (Except.error "Step timeout after 30000ms", 30000) :=
  c7_timeout_enforcement.1 engW.config exRun (JValue.jobj [("type", JValue.jstr "scan")])
    (some 30001) (by intro t ht; injection ht with h2; subst h2; decide)

/-- C8: not-found atomicity of `executeWorkflow`. An unknown workflow id
makes `executeWorkflow` fail with `Workflow not found: <id>` and return the
engine unchanged — the throw happens before the execution record is built, so
the execution table is untouched and `listExecutions` reports exactly what it
did before. -/
theorem c8_workflow_not_found :
    ∀ (eng : Engine) (workflowId : String) (triggerData options : JValue),
      assocGet eng.workflows workflowId = none →
      executeWorkflow eng workflowId triggerData options
        = (eng, Except.error ("Workflow not found: " ++ workflowId)) ∧
      listExecutions (executeWorkflow eng workflowId triggerData options).1 none
        = listExecutions eng none := by
  intro eng workflowId td o h
  constructor
  · simp [executeWorkflow, h]
  · simp [executeWorkflow, h]

/-- Witness for C8: executing the unknown id `nonexistent` on a fresh engine
fails and leaves the engine unchanged. -/
theorem c8_workflow_not_found_witness :
    executeWorkflow engW "nonexistent" (JValue.jobj []) (JValue.jobj [])
      = (engW, Except.error "Workflow not found: nonexistent") :=
  (c8_workflow_not_found engW "nonexistent" (JValue.jobj []) (JValue.jobj []) (by rfl)).1

end Vaultace
